import Mathlib

/-!
# Channel Access server core (caServerI)

A shallow embedding of `src/cas/generic/caServerI.cc`: the server object that owns the
listening interfaces and the client connections, and its beacon back-off schedule; and of
the fast number formatting, the bit field routines and the fallback `strtoul` of
`src/libCom/cvtFast.c`; and of the node pool of `src/libCom/cppStd/epicsListBase.cpp`.

Modelling conventions.

* A `double` is modelled by the rational number it denotes.  The only arithmetic the
  server performs on the beacon period is `beaconPeriod += beaconPeriod`, which is exact
  in binary floating point, and the comparisons `>=` and `<=`, which are exact as well;
  so on finite values the rational model and the machine agree.
* `unsigned` is a natural number reduced modulo `2 ^ unsignedBits`.
* The intrusive lists `tsDLList<T>` are modelled by `List T`: `add` appends at the end,
  `count` is the length, iteration runs from the first entry to the last.
* Calls into collaborators that live outside this translation unit (`errlogPrintf`,
  `errMessage`, `printf`, the methods of `casIntfOS` and of the stream client) are
  recorded, in program order, in a list of `Effect`s returned next to the new state.
* The scope of the mutex guard in `sendBeacon` is recorded in a list of `Step`s.
-/

namespace CAS

/-! ## Data model -/

/-- Status codes used by this translation unit (`caStatus`, declared in `casdef.h`). -/
inductive caStatus where
  | S_cas_success
  | S_cas_noMemory
  | S_cas_noInterface
  deriving DecidableEq, Repr

/-- A network address (`caNetAddr`); only its identity matters here. -/
abbrev caNetAddr := Nat

/-- A stream client (`casStrmClient`); only its identity matters here. -/
abbrev casStrmClient := Nat

/-- A listening interface, as built by
`new casIntfOS (*this, addr, autoBeaconAddr, addConfigBeaconAddr)`. -/
structure casIntfOS where
  addr : caNetAddr
  autoBeaconAddr : Bool
  addConfigBeaconAddr : Bool
  deriving DecidableEq, Repr

/-- The data members of `caServerI` that this translation unit reads or writes. -/
structure caServerI where
  beaconPeriod : ℚ
  maxBeaconInterval : ℚ
  debugLevel : Nat
  nEventsProcessed : Nat
  nEventsPosted : Nat
  beaconCounter : Nat
  clientList : List casStrmClient
  intfList : List casIntfOS
  deriving DecidableEq

/-- Calls that leave this translation unit, in the order in which they are made. -/
inductive Effect where
  /-- The first `errlogPrintf` of the constructor: the float fetch failed. -/
  | errlogFetchFailed
  /-- The second `errlogPrintf` of the constructor: the value the ceiling is set to. -/
  | errlogSetting (value : ℚ)
  /-- The call `errMessage (status, ...)`. -/
  | errMessage (status : caStatus)
  /-- The call `iter->sendBeacon (beaconCounter)` on one interface. -/
  | intfSendBeacon (intf : casIntfOS) (beaconCounter : Nat)
  /-- The call `iter->destroy ()` on one client, in the destructor. -/
  | clientDestroy (client : casStrmClient)
  /-- The statement `delete pIF` on one interface, in the destructor. -/
  | intfDelete (intf : casIntfOS)
  /-- The call `pClient->sendVersion ()`. -/
  | sendVersion (client : casStrmClient)
  /-- The call `pClient->flush ()`. -/
  | flush (client : casStrmClient)
  /-- The first `printf` of `show`: the status line with the protocol version. -/
  | printStatus
  /-- The call `this->mutex.show (level)`. -/
  | mutexShow (level : Nat)
  /-- The call `iterCl->show (level)` on one client. -/
  | clientShow (client : casStrmClient) (level : Nat)
  /-- The call `iterIF->casIntfOS::show (level)` on one interface. -/
  | intfShow (intf : casIntfOS) (level : Nat)
  /-- The `printf` of the number of bytes on the free list. -/
  | printBytesReserved (bytes : Int)
  /-- The `printf` that announces the resource id conversion table. -/
  | printResTableHeader
  /-- The call `this->chronIntIdResTable<casRes>::show (level)`. -/
  | resTableShow (level : Nat)
  /-- The call of `casEventMaskEntry::destroy` on one mask entry of the event registry. -/
  | maskEntryDestroy (name : String) (handle : Nat)
  deriving DecidableEq

/-- The constant `static const double CAServerMaxBeaconPeriod = 15.0`. -/
def CAServerMaxBeaconPeriod : ℚ := 15

/-- The constant `static const double CAServerMinBeaconPeriod = 1.0e-3`. -/
def CAServerMinBeaconPeriod : ℚ := 1 / 1000

/-- Width in bits of `unsigned`, the type of `beaconCounter`. -/
def unsignedBits : Nat := 32

/-! ## Operations -/

/-- The method `caServerI::advanceBeaconPeriod`. -/
def advanceBeaconPeriod (s : caServerI) : caServerI :=
  if s.beaconPeriod ≥ s.maxBeaconInterval then
    s
  else
    let s1 := { s with beaconPeriod := s.beaconPeriod + s.beaconPeriod }
    if s1.beaconPeriod ≥ s1.maxBeaconInterval then
      { s1 with beaconPeriod := s1.maxBeaconInterval }
    else
      s1

/-- The method `caServerI::getBeaconPeriod`. -/
def getBeaconPeriod (s : caServerI) : ℚ :=
  s.beaconPeriod

/-- Modelled from the spec: the constructor of `casIntfOS` is not among the sources at
hand.  This is the result of `new casIntfOS (*this, addr, autoBeaconAddr,
addConfigBeaconAddr)`: `none` is the null pointer that `attachInterface` tests for, and
`allocOk` tells whether the allocation succeeds.  When it does, the constructor, which
validates that the address is usable, has completed: a call in which the constructor
rejects the address does not return and is not among the calls modelled.  An interface
that is yielded is bound to the address it was given. -/
def newCasIntfOS (allocOk : Bool) (addr : caNetAddr) (autoBeaconAddr : Bool)
    (addConfigBeaconAddr : Bool) : Option casIntfOS :=
  if allocOk then some ⟨addr, autoBeaconAddr, addConfigBeaconAddr⟩ else none

/-- The method `caServerI::attachInterface`; `allocOk` tells whether the allocation
succeeds. -/
def attachInterface (s : caServerI) (addr : caNetAddr) (autoBeaconAddr : Bool)
    (addConfigBeaconAddr : Bool) (allocOk : Bool) : caStatus × caServerI :=
  match newCasIntfOS allocOk addr autoBeaconAddr addConfigBeaconAddr with
  | none => (caStatus.S_cas_noMemory, s)
  | some pIntf => (caStatus.S_cas_success, { s with intfList := s.intfList ++ [pIntf] })

/-- The loop of `caServerI::sendBeacon`: every interface that the iterator still has to
visit is asked to send a beacon carrying the counter held by the server at that moment. -/
def sendBeaconLoop (s : caServerI) : List casIntfOS → List Effect
  | [] => []
  | intf :: rest => Effect.intfSendBeacon intf s.beaconCounter :: sendBeaconLoop s rest

/-- The method `caServerI::sendBeacon`. -/
def sendBeacon (s : caServerI) : caServerI × List Effect :=
  let out := sendBeaconLoop s s.intfList
  let s1 := { s with beaconCounter := (s.beaconCounter + 1) % 2 ^ unsignedBits }
  (advanceBeaconPeriod s1, out)

/-- The server after `n` successive calls of `sendBeacon`. -/
def sendBeaconN : Nat → caServerI → caServerI
  | 0, s => s
  | n + 1, s => sendBeaconN n (sendBeacon s).1

/-- One `attachInterface` call made during interface discovery. -/
structure AttachCall where
  addr : caNetAddr
  autoBeaconAddr : Bool
  addConfigBeaconAddr : Bool
  allocOk : Bool
  deriving DecidableEq, Repr

/-- Modelled from the spec: interface discovery (`caServerI::locateInterfaces`, defined in
a translation unit that is not among the sources at hand) gives the caller a chance to
attach interfaces; it is taken as the sequence of `attachInterface` calls it makes, each
with the outcome of its allocation. -/
def locateInterfaces (s : caServerI) : List AttachCall → caServerI
  | [] => s
  | c :: rest =>
    locateInterfaces
      (attachInterface s c.addr c.autoBeaconAddr c.addConfigBeaconAddr c.allocOk).2 rest

/-- The first part of the constructor `caServerI::caServerI` (member initialisers and the
configuration of the beacon ceiling).  `status` and `maxPeriod` are what
`envGetDoubleConfigParam (&EPICS_CA_BEACON_PERIOD, &maxPeriod)` returned and stored. -/
def constructConfig (status : Int) (maxPeriod : ℚ) : caServerI × List Effect :=
  let s0 : caServerI :=
    { beaconPeriod := CAServerMinBeaconPeriod
      maxBeaconInterval := 0 -- not yet assigned; both branches below assign it
      debugLevel := 0
      nEventsProcessed := 0
      nEventsPosted := 0
      beaconCounter := 0
      clientList := []
      intfList := [] }
  if status ≠ 0 ∨ maxPeriod ≤ 0 then
    let s1 := { s0 with maxBeaconInterval := CAServerMaxBeaconPeriod }
    (s1, [Effect.errlogFetchFailed, Effect.errlogSetting s1.maxBeaconInterval])
  else
    ({ s0 with maxBeaconInterval := maxPeriod }, [])

/-- The constructor `caServerI::caServerI`: configuration, then interface discovery
(`calls` is what discovery does), then the check that an interface exists.  The result
is `Except.error` when the constructor throws. -/
def construct (status : Int) (maxPeriod : ℚ) (calls : List AttachCall) :
    Except caStatus caServerI × List Effect :=
  let s1 := locateInterfaces (constructConfig status maxPeriod).1 calls
  let log1 := (constructConfig status maxPeriod).2
  if s1.intfList.length = 0 then
    (Except.error caStatus.S_cas_noInterface,
      log1 ++ [Effect.errMessage caStatus.S_cas_noInterface])
  else
    (Except.ok s1, log1)

/-! ## Clients, destruction, accept and diagnostics -/

/-- The method `caServerI::installClient`: `clientList.add` appends the client. -/
def installClient (s : caServerI) (pClient : casStrmClient) : caServerI :=
  { s with clientList := s.clientList ++ [pClient] }

/-- The method `caServerI::removeClient`: `clientList.remove` unlinks the client. -/
def removeClient (s : caServerI) (pClient : casStrmClient) : caServerI :=
  { s with clientList := s.clientList.erase pClient }

/-- Modelled from the spec: `casStrmClient::destroy` is not among the sources at hand;
each connection removes itself from `clients` as part of its own teardown (the comment at
the call site says the same: the destructor takes the client out of the list). -/
def clientDestroy (s : caServerI) (client : casStrmClient) : caServerI :=
  removeClient s client

/-- The iterator step `++tmp` of `tsDLIter`: the entry that follows `c` in the list, or
`none` (an invalid iterator) when `c` is the last entry. -/
def nextInList : List casStrmClient → casStrmClient → Option casStrmClient
  | [], _ => none
  | x :: rest, c => if x = c then rest.head? else nextInList rest c

/-- The first loop of the destructor `caServerI::~caServerI`.  `iter` is the iterator
(`none` when it is not valid); the successor is saved in `tmp` before the client is
destroyed.  The first argument bounds the number of loop tests; `none` is returned when
the bound is used up before the iterator becomes invalid. -/
def destroyClientsLoop : Nat → caServerI → Option casStrmClient →
    Option (caServerI × List Effect)
  | 0, _, _ => none
  | _ + 1, s, none => some (s, [])
  | fuel + 1, s, some c =>
    let tmp := nextInList s.clientList c
    let s1 := clientDestroy s c
    match destroyClientsLoop fuel s1 tmp with
    | none => none
    | some r => some (r.1, Effect.clientDestroy c :: r.2)

/-- The second loop of the destructor: `intfList.get ()` takes the first interface off
the list, and the interface is deleted, until `get` returns null.  The list argument is
the interface list of the server. -/
def deleteInterfacesLoop (s : caServerI) : List casIntfOS → caServerI × List Effect
  | [] => ({ s with intfList := [] }, [])
  | pIF :: rest =>
    let r := deleteInterfacesLoop { s with intfList := rest } rest
    (r.1, Effect.intfDelete pIF :: r.2)

/-- The destructor `caServerI::~caServerI`, with a bound on the tests of its first loop. -/
def destruct (fuel : Nat) (s : caServerI) : Option (caServerI × List Effect) :=
  match destroyClientsLoop fuel s s.clientList.head? with
  | none => none
  | some r1 =>
    let r2 := deleteInterfacesLoop r1.1 r1.1.intfList
    some (r2.1, r1.2 ++ r2.2)

/-- Modelled from the spec: `casIntfOS::newStreamClient` is not among the sources at hand;
the interface that accepted a peer constructs the connection, which is not yet inserted
into `clients`.  `accepted` is the connection it creates, `none` when it creates none. -/
def newStreamClient (s : caServerI) (accepted : Option casStrmClient) :
    Option casStrmClient × caServerI :=
  (accepted, s)

/-- The method `caServerI::connectCB`, with every call it makes on the new client paired
with the server state in which the call is made. -/
def connectCBTrace (s : caServerI) (accepted : Option casStrmClient) :
    caServerI × List (Effect × caServerI) :=
  match newStreamClient s accepted with
  | (none, s1) => (s1, [])
  | (some pClient, s1) => (s1, [(Effect.sendVersion pClient, s1), (Effect.flush pClient, s1)])

/-- The method `caServerI::connectCB`. -/
def connectCB (s : caServerI) (accepted : Option casStrmClient) : caServerI × List Effect :=
  ((connectCBTrace s accepted).1, (connectCBTrace s accepted).2.map Prod.fst)

/-- The first loop of `caServerI::show`, over the client list. -/
def showClientsLoop (level : Nat) : List casStrmClient → List Effect
  | [] => []
  | c :: rest => Effect.clientShow c level :: showClientsLoop level rest

/-- The second loop of `caServerI::show`, over the interface list. -/
def showIntfLoop (level : Nat) : List casIntfOS → List Effect
  | [] => []
  | i :: rest => Effect.intfShow i level :: showIntfLoop level rest

/-- The method `caServerI::show`, a `const` method; the state is returned next to what is
printed so that the absence of any change can be stated. -/
def serverShow (s : caServerI) (level : Nat) : caServerI × List Effect :=
  let out1 := [Effect.printStatus, Effect.mutexShow level]
  let out2 := showClientsLoop level s.clientList ++ showIntfLoop level s.intfList
  let bytes_reserved : Int := 0
  let out3 :=
    if level ≥ 1 then
      [Effect.printBytesReserved bytes_reserved, Effect.printResTableHeader,
        Effect.resTableShow level]
    else []
  (s, out1 ++ out2 ++ out3)

/-! ## Reachable states and validated attach calls -/

/-- States that a running server can be in: the constructed state and everything that the
operations of the server make of it, in any order: `sendBeacon`, `advanceBeaconPeriod`,
`attachInterface`, `installClient`, `removeClient`, `connectCB` and `show`.  The remaining
two members of the translation unit add nothing: `getBeaconPeriod` returns no state, and
the destructor ends the server. -/
inductive Reachable : caServerI → Prop where
  | constructed (status : Int) (maxPeriod : ℚ) (calls : List AttachCall) (s : caServerI) :
      (construct status maxPeriod calls).1 = Except.ok s → Reachable s
  | sendBeacon (s : caServerI) : Reachable s → Reachable (sendBeacon s).1
  | advanceBeaconPeriod (s : caServerI) : Reachable s → Reachable (advanceBeaconPeriod s)
  | attachInterface (s : caServerI) (addr : caNetAddr) (autoBeaconAddr : Bool)
      (addConfigBeaconAddr : Bool) (allocOk : Bool) : Reachable s →
      Reachable (attachInterface s addr autoBeaconAddr addConfigBeaconAddr allocOk).2
  | installClient (s : caServerI) (pClient : casStrmClient) : Reachable s →
      Reachable (installClient s pClient)
  | removeClient (s : caServerI) (pClient : casStrmClient) : Reachable s →
      Reachable (removeClient s pClient)
  | connectCB (s : caServerI) (accepted : Option casStrmClient) : Reachable s →
      Reachable (connectCB s accepted).1
  | serverShow (s : caServerI) (level : Nat) : Reachable s →
      Reachable (serverShow s level).1

/-- What `sendBeacon` does to the mutex and to the beacon state, step by step. -/
inductive Step where
  /-- The guard `epicsGuard < epicsMutex > locker (this->mutex)` is constructed. -/
  | mutexLock
  /-- The block of the guard ends. -/
  | mutexUnlock
  /-- The member `beaconCounter` is read. -/
  | counterRead
  /-- The member `beaconCounter` is written. -/
  | counterWrite
  /-- The member `beaconPeriod` is read. -/
  | periodRead
  /-- The member `beaconPeriod` is written. -/
  | periodWrite
  /-- The call `iter->sendBeacon (...)` on one interface. -/
  | intfBeacon (intf : casIntfOS) (beaconCounter : Nat)
  deriving DecidableEq

/-- The steps of the loop of `sendBeacon`. -/
def sendBeaconLoopSteps (s : caServerI) : List casIntfOS → List Step
  | [] => []
  | intf :: rest =>
    Step.counterRead :: Step.intfBeacon intf s.beaconCounter :: sendBeaconLoopSteps s rest

/-- The steps of `advanceBeaconPeriod`. -/
def advanceBeaconPeriodSteps (s : caServerI) : List Step :=
  if s.beaconPeriod ≥ s.maxBeaconInterval then
    [Step.periodRead]
  else
    let s1 := { s with beaconPeriod := s.beaconPeriod + s.beaconPeriod }
    if s1.beaconPeriod ≥ s1.maxBeaconInterval then
      [Step.periodRead, Step.periodRead, Step.periodWrite, Step.periodRead, Step.periodWrite]
    else
      [Step.periodRead, Step.periodRead, Step.periodWrite, Step.periodRead]

/-- The steps of `sendBeacon`: the guard lives in the inner block that holds the loop;
`this->beaconCounter++` and the call of `advanceBeaconPeriod` follow that block. -/
def sendBeaconSteps (s : caServerI) : List Step :=
  [Step.mutexLock] ++ sendBeaconLoopSteps s s.intfList ++ [Step.mutexUnlock] ++
    [Step.counterRead, Step.counterWrite] ++
    advanceBeaconPeriodSteps
      { s with beaconCounter := (s.beaconCounter + 1) % 2 ^ unsignedBits }

/-- Every step of a run paired with whether the mutex is held when the step is made;
`held` tells whether it is held at the start. -/
def withMutex : Bool → List Step → List (Step × Bool)
  | _, [] => []
  | _, Step.mutexLock :: rest => (Step.mutexLock, true) :: withMutex true rest
  | _, Step.mutexUnlock :: rest => (Step.mutexUnlock, false) :: withMutex false rest
  | held, st :: rest => (st, held) :: withMutex held rest

/-- Whether a step reads or writes the beacon counter or the beacon period. -/
def Step.touchesBeaconState : Step → Bool
  | Step.counterRead => true
  | Step.counterWrite => true
  | Step.periodRead => true
  | Step.periodWrite => true
  | _ => false

/-! ## Fast conversion of a floating point number to a string (`cvtFast.c`) -/

/-- The table `frac_multiplier`. -/
def frac_multiplier : List Nat :=
  [1, 10, 100, 1000, 10000, 100000, 1000000, 10000000, 100000000]

/-- The character stored by `*pstr_value = number + '0'`. -/
def digitChar (number : Nat) : Char :=
  Char.ofNat ((number + 48) % 256)

/-- The loop over the whole number part in `cvtDoubleToString`:
`for (iplace = 1000000; iplace >= 1; iplace /= 10)`; the list holds the values that
`iplace` still has to take. -/
def wholeLoop : List Nat → Nat → Bool → List Char × Bool
  | [], _, got_one => ([], got_one)
  | iplace :: rest, whole, got_one =>
    if whole ≥ iplace then
      let number := whole / iplace
      let r := wholeLoop rest (whole - number * iplace) true
      (digitChar number :: r.1, r.2)
    else if got_one then
      let r := wholeLoop rest whole got_one
      (Char.ofNat 48 :: r.1, r.2)
    else
      wholeLoop rest whole got_one

/-- The loop over the fraction in `cvtDoubleToString`:
`for (fplace /= 10, i = precision; i > 0; fplace /= 10, i--)`; the second argument is
`fplace` after the division of the loop header. -/
def fractionLoop : Nat → Nat → Nat → List Char
  | 0, _, _ => []
  | i + 1, fplace, fraction =>
    let number := fraction / fplace
    digitChar number :: fractionLoop i (fplace / 10) (fraction - number * fplace)

/-- The function `cvtDoubleToString` (and, with the same body, `cvtFloatToString`).  The
result is the string written, without the terminating NUL, and the value returned; it is
`none` when the routine hands the value to `sprintf`.  The value is modelled by the
rational number it denotes (at whole numbers and halves every floating point operation of
the routine is exact).  The integers that occur stay below `2 ^ 31` on the path modelled,
so `long` is modelled by the natural numbers. -/
def cvtDoubleToString (flt_value : ℚ) (precision : Nat) : Option (List Char × Nat) :=
  if precision > 8 ∨ flt_value > 10000000 ∨ flt_value < -10000000 then
    none
  else
    let sign : List Char := if flt_value < 0 then [Char.ofNat 45] else []
    let flt_value1 : ℚ := if flt_value < 0 then -flt_value else flt_value
    let whole : Nat := (Rat.floor flt_value1).toNat
    let ftemp : ℚ := flt_value1 - whole
    let fplace : Nat := frac_multiplier.getD precision 0
    let fraction0 : Nat := (Rat.floor (ftemp * fplace * 10)).toNat
    let fraction1 : Nat := (fraction0 + 5) / 10
    let whole1 : Nat := if fraction1 / fplace ≥ 1 then whole + 1 else whole
    let fraction2 : Nat := if fraction1 / fplace ≥ 1 then fraction1 - fplace else fraction1
    let w := wholeLoop [1000000, 100000, 10000, 1000, 100, 10, 1] whole1 false
    let digits : List Char := if w.2 then w.1 else w.1 ++ [Char.ofNat 48]
    let frac : List Char :=
      if precision > 0 then Char.ofNat 46 :: fractionLoop precision (fplace / 10) fraction2
      else []
    let str := sign ++ digits ++ frac
    some (str, str.length)

/-! ## Compact conversion of a floating point number (`cvtFast.c`) -/

/-- The function `cvtDoubleToCompactString` (and, with the same body over the `float`
routines, `cvtFloatToCompactString`).  The E-format routine it dispatches to computes in
single precision (`register float place, divisor`), which has no counterpart in this
embedding; it is therefore passed in as `expString`, and the dispatcher is stated for
whatever that routine returns. -/
def cvtDoubleToCompactString (expString : ℚ → Nat → Option (List Char × Nat))
    (f_value : ℚ) (f_precision : Nat) : Option (List Char × Nat) :=
  if (f_value < 10000 ∧ f_value > 1 / 10000) ∨
      (f_value > -10000 ∧ f_value < -(1 / 10000)) ∨ f_value = 0 then
    cvtDoubleToString f_value f_precision
  else
    expString f_value f_precision

/-- The dispatch of the compact conversion in the words of its description: `f` notation
if `10^-4 < |value| < 10^4` or the value is zero, `e` notation otherwise. -/
def compactStringSpec (expString : ℚ → Nat → Option (List Char × Nat))
    (v : ℚ) (p : Nat) : Option (List Char × Nat) :=
  if (1 / 10000 < |v| ∧ |v| < 10000) ∨ v = 0 then cvtDoubleToString v p else expString v p

/-! ## Integers to strings (`cvtFast.c`) -/

/-- The table `digit_to_ascii`. -/
def digit_to_ascii : List Char :=
  ['0', '1', '2', '3', '4', '5', '6', '7', '8', '9']

/-- The table `hex_digit_to_ascii`: the ten decimal digit characters followed by the lower
case letters `a` to `f`. -/
def hex_digit_to_ascii : List Char :=
  digit_to_ascii ++ ['a', 'b', 'c', 'd', 'e', 'f']

/-- Width in bits of `long` and `unsigned long` in the integer conversions. -/
def longBits : Nat := 32

/-- The constant `LONG_MIN`. -/
def LONG_MIN : Int := -(2 ^ (longBits - 1))

/-- The digit extraction loop that every integer conversion repeats,
`for (i=0; val!=0; i++) { temp = val/base; digit[i] = table[val - temp*base]; val = temp; }`
with `base` the constant 10, 16 or 8 of the routine.  The result lists `digit[0]`,
`digit[1]`, ..., `digit[i-1]`: the least significant digit comes first. -/
def extractDigits (base : Nat) (table : List Char) (val : Nat) : List Char :=
  if _h : val = 0 ∨ base ≤ 1 then
    []
  else
    let temp := val / base
    table.getD (val - temp * base) (Char.ofNat 0) :: extractDigits base table temp
termination_by val
decreasing_by exact Nat.div_lt_self (by omega) (by omega)

/-- The tail shared by the integer conversions: the digits are copied to the destination
from `digit[i-1]` down to `digit[0]`, a NUL is stored, and the number of characters before
the NUL is returned.  `size` is the declared size of the local array `digit`; the result is
`none` when the loop would have stored past its end.  `sign` is what was written before. -/
def writeDigits (size : Nat) (sign digit : List Char) : Option (List Char × Nat) :=
  if digit.length > size then none
  else some (sign ++ digit.reverse ++ [Char.ofNat 0], (sign ++ digit.reverse).length)

/-- The function `cvtUlongToString`: the characters stored at `pdest`, the terminating
NUL included, and the value returned. -/
def cvtUlongToString (source : Nat) : Option (List Char × Nat) :=
  if source = 0 then
    some (['0', Char.ofNat 0], 1)
  else
    writeDigits 10 [] (extractDigits 10 digit_to_ascii source)

/-- The function `cvtLongToString`; `none` also stands for the `LONG_MIN` case, which is
handed to `sprintf`. -/
def cvtLongToString (source : Int) : Option (List Char × Nat) :=
  if source = 0 then
    some (['0', Char.ofNat 0], 1)
  else if source < 0 then
    if source = LONG_MIN then none
    else writeDigits 11 ['-'] (extractDigits 10 digit_to_ascii (-source).toNat)
  else
    writeDigits 11 [] (extractDigits 10 digit_to_ascii source.toNat)

/-- The function `cvtLongToHexString`; `none` also stands for the `LONG_MIN` case, which
is handed to `sprintf`. -/
def cvtLongToHexString (source : Int) : Option (List Char × Nat) :=
  if source = 0 then
    some (['0', Char.ofNat 0], 1)
  else if source < 0 then
    if source = LONG_MIN then none
    else writeDigits 10 ['-'] (extractDigits 16 hex_digit_to_ascii (-source).toNat)
  else
    writeDigits 10 [] (extractDigits 16 hex_digit_to_ascii source.toNat)

/-- The value of a digit character in a base up to 36, lower case letters for the digits
from ten on; `none` for any other character. -/
def digitValue (base : Nat) (c : Char) : Option Nat :=
  if 48 ≤ c.toNat ∧ c.toNat < 58 then
    if c.toNat - 48 < base then some (c.toNat - 48) else none
  else if 97 ≤ c.toNat ∧ c.toNat < 123 then
    if c.toNat - 97 + 10 < base then some (c.toNat - 97 + 10) else none
  else none

/-- Reading a string of digits in a base, most significant digit first: the number it
denotes, or `none` when it is empty or holds a character that is not a digit. -/
def parseDigits (base : Nat) : List Char → Nat → Option Nat
  | [], acc => some acc
  | c :: rest, acc =>
    match digitValue base c with
    | none => none
    | some d => parseDigits base rest (acc * base + d)

/-- Reading a signed integer in a base: an optional `-` and then at least one digit. -/
def parseSigned (base : Nat) : List Char → Option Int
  | [] => none
  | c :: rest =>
    if c = '-' then
      if rest = [] then none
      else
        match parseDigits base rest 0 with
        | none => none
        | some n => some (-(n : Int))
    else
      match parseDigits base (c :: rest) 0 with
      | none => none
      | some n => some (n : Int)

/-- The canonical digits of a natural number in a base, most significant first, taken from
a table of digit characters; `0` for zero. -/
def canonicalDigits (base : Nat) (table : List Char) (n : Nat) : List Char :=
  if n = 0 then ['0']
  else (Nat.digits base n).reverse.map (fun d => table.getD d (Char.ofNat 0))

/-! ## Bit fields (`cvtFast.c`) -/

/-- A value of type `int` (32 bits, two's complement) after an arithmetic step. -/
def intWrap (x : Int) : Int :=
  (x + 2 ^ 31) % 2 ^ 32 - 2 ^ 31

/-- The expression `(1<<bitFieldLength)-1`, computed in `int` and converted to an
`unsigned long` of `w` bits.  It is `2 ^ bitFieldLength - 1` as long as
`bitFieldLength <= 30`; beyond that the C expression overflows and the model wraps. -/
def bitFieldMask (w bitFieldLength : Nat) : Nat :=
  (intWrap (intWrap (2 ^ bitFieldLength) - 1) % 2 ^ w).toNat

/-- The function `cvtBitsToUlong` for an `unsigned long` of `w` bits.  A shift by the full
width, which C leaves undefined, shifts every bit out. -/
def cvtBitsToUlong (w src bitFieldOffset bitFieldLength : Nat) : Nat :=
  let src1 := src >>> bitFieldOffset
  let mask := bitFieldMask w bitFieldLength
  src1 &&& mask

/-- The function `cvtUlongToBits` for an `unsigned long` of `w` bits; `~mask` is the
complement within `w` bits. -/
def cvtUlongToBits (w src dest bitFieldOffset bitFieldLength : Nat) : Nat :=
  let mask0 := bitFieldMask w bitFieldLength
  let mask := (mask0 <<< bitFieldOffset) % 2 ^ w
  let src1 := (src <<< bitFieldOffset) % 2 ^ w
  (dest &&& (mask ^^^ (2 ^ w - 1))) ||| (src1 &&& mask)

/-! ## The fallback `strtoul` (`cvtFast.c`) -/

/-- What `strtoul` hands back: the value returned, whether `errno` was set to `ERANGE`, and
the offset from the start of the string that is stored through `ptr`. -/
structure StrtoulResult where
  value : Nat
  erange : Bool
  endOffset : Nat
  deriving DecidableEq, Repr

/-- The test `isspace` in the C locale. -/
def isspaceC (c : Char) : Bool :=
  c.toNat = 32 || (9 ≤ c.toNat && c.toNat ≤ 13)

/-- The classification of one character in the loop of `strtoul`: its digit value, or
`none` where the loop breaks. -/
def strtoulDigit (base : Nat) (digit : Nat) : Option Nat :=
  if digit ≥ 48 ∧ digit < 48 + base then some (digit - 48)
  else if base > 10 then
    if digit ≥ 97 ∧ digit < 97 + (base - 10) then some (digit - 97 + 10)
    else if digit ≥ 65 ∧ digit < 65 + (base - 10) then some (digit - 65 + 10)
    else none
  else none

/-- The loop `while ( digit = *s )` of `strtoul` for an `unsigned long` of `w` bits;
`pos` is the offset of `s` from the start, the end of the list is the terminating NUL. -/
def strtoulLoop (w base : Nat) (negate : Bool) :
    List Char → Nat → Nat → Bool → StrtoulResult
  | [], pos, total, did =>
    { value := if negate then (2 ^ w - total) % 2 ^ w else total
      erange := false
      endOffset := if did then pos else 0 }
  | c :: rest, pos, total, did =>
    if c.toNat = 0 then
      { value := if negate then (2 ^ w - total) % 2 ^ w else total
        erange := false
        endOffset := if did then pos else 0 }
    else
      match strtoulDigit base c.toNat with
      | none =>
        { value := if negate then (2 ^ w - total) % 2 ^ w else total
          erange := false
          endOffset := if did then pos else 0 }
      | some digit =>
        let tmp := (total * base + digit) % 2 ^ w
        if tmp < total then
          { value := 2 ^ w - 1, erange := true, endOffset := pos }
        else
          strtoulLoop w base negate rest (pos + 1) tmp true

/-- The function `strtoul` (the fallback for a C library without it) on a string that is
not the null pointer, for an `unsigned long` of `w` bits. -/
def strtoul (w : Nat) (s : List Char) (base : Nat) : StrtoulResult :=
  let s1 := s.dropWhile isspaceC
  let pos1 := s.length - s1.length
  let signed : List Char × Nat × Bool :=
    match s1 with
    | c :: rest =>
      if c = '+' then (rest, pos1 + 1, false)
      else if c = '-' then (rest, pos1 + 1, true)
      else (s1, pos1, false)
    | [] => (s1, pos1, false)
  let s2 := signed.1
  let pos2 := signed.2.1
  let negate := signed.2.2
  let inferred : List Char × Nat × Nat :=
    if base = 0 ∨ base = 16 then
      match s2 with
      | c0 :: c1 :: rest =>
        if c0 ≠ '0' then (s2, pos2, 10)
        else if c1 = 'X' ∨ c1 = 'x' then (rest, pos2 + 2, 16)
        else (s2, pos2, 8)
      | [c0] => if c0 ≠ '0' then (s2, pos2, 10) else (s2, pos2, 8)
      | [] => (s2, pos2, 10)
    else (s2, pos2, 0)
  let base1 := if base = 0 then inferred.2.2 else base
  strtoulLoop w base1 negate inferred.1 inferred.2.1 0 false

/-! ## The event registry -/

/-- Modelled from the spec: the event registry (`casEventRegistry`, a base of the server
whose members are not among the sources at hand) is a mapping from event name to an opaque
event-type handle, held as one mask entry per name in order of creation. -/
structure casEventRegistry where
  entries : List (String × Nat)
  deriving DecidableEq

/-- The handle that a list of mask entries holds for a name, if any. -/
def findHandle (name : String) : List (String × Nat) → Option Nat
  | [] => none
  | e :: rest => if e.1 = name then some e.2 else findHandle name rest

/-- Modelled from the spec: `registerEvent (name)` is not among the sources at hand; it
returns a stable handle for a name by lookup-or-create: the handle of the entry the
registry already holds for the name, or else the handle of a new entry that it creates. -/
def registerEvent (r : casEventRegistry) (pName : String) : Nat × casEventRegistry :=
  match findHandle pName r.entries with
  | some handle => (handle, r)
  | none => (r.entries.length, { entries := r.entries ++ [(pName, r.entries.length)] })

/-- The members `valueEvent`, `logEvent` and `alarmEvent` of the server. -/
structure PredefinedEvents where
  valueEvent : Nat
  logEvent : Nat
  alarmEvent : Nat
  deriving DecidableEq, Repr

/-- The part of the constructor `caServerI::caServerI` that creates the predefined event
types, on the registry as it is when the server is built (no entry yet). -/
def constructEvents : PredefinedEvents × casEventRegistry :=
  let r0 : casEventRegistry := { entries := [] }
  let r1 := registerEvent r0 "value"
  let r2 := registerEvent r1.2 "log"
  let r3 := registerEvent r2.2 "alarm"
  ({ valueEvent := r1.1, logEvent := r2.1, alarmEvent := r3.1 }, r3.2)

/-- The registry after a sequence of further `registerEvent` calls. -/
def registerEvents (r : casEventRegistry) : List String → casEventRegistry
  | [] => r
  | name :: rest => registerEvents (registerEvent r name).2 rest

/-- Modelled from the spec: `casEventMaskEntry::destroy` is not among the sources at hand;
it releases the mask entry, which is then no longer held by the registry. -/
def maskEntryDestroy (r : casEventRegistry) (e : String × Nat) : casEventRegistry :=
  { entries := r.entries.erase e }

/-- Modelled from the spec: `traverse` of the registry is not among the sources at hand;
it visits every mask entry and applies the operation to it.  The list argument holds the
entries still to be visited. -/
def traverseDestroy (r : casEventRegistry) :
    List (String × Nat) → casEventRegistry × List Effect
  | [] => (r, [])
  | e :: rest =>
    let res := traverseDestroy (maskEntryDestroy r e) rest
    (res.1, Effect.maskEntryDestroy e.1 e.2 :: res.2)

/-- The destructor `casEventRegistry::~casEventRegistry`:
`this->traverse ( &casEventMaskEntry::destroy )`. -/
def destructRegistry (r : casEventRegistry) : casEventRegistry × List Effect :=
  traverseDestroy r r.entries

/-! ## The resource table -/

/-- A resource (`casRes`); only its identity matters here. -/
abbrev casRes := Nat

/-- Modelled from the spec: the resource table (`chronIntIdResTable<casRes>`, not among the
sources at hand) holds pairs of an id and the resource that owns it; ids are assigned by
the table, and `allocId` is the next id it will assign. -/
structure chronIntIdResTable where
  entries : List (Nat × casRes)
  allocId : Nat
  deriving DecidableEq

/-- Modelled from the spec: `insert (resource) -> id` assigns a previously unused small
integer and stores the pair. -/
def tableInsert (t : chronIntIdResTable) (res : casRes) : Nat × chronIntIdResTable :=
  (t.allocId, { entries := (t.allocId, res) :: t.entries, allocId := t.allocId + 1 })

/-- The resource that a list of pairs holds for an id, if any. -/
def findRes (id : Nat) : List (Nat × casRes) → Option casRes
  | [] => none
  | e :: rest => if e.1 = id then some e.2 else findRes id rest

/-- Modelled from the spec: `lookup (id) -> resource | NotFound`; `none` is `NotFound`. -/
def tableLookup (t : chronIntIdResTable) (id : Nat) : Option casRes :=
  findRes id t.entries

/-- The pairs of a list without those for an id. -/
def removeRes (id : Nat) : List (Nat × casRes) → List (Nat × casRes)
  | [] => []
  | e :: rest => if e.1 = id then removeRes id rest else e :: removeRes id rest

/-- Modelled from the spec: `remove (id)`; removing an id that is not in the table changes
nothing. -/
def tableRemove (t : chronIntIdResTable) (id : Nat) : chronIntIdResTable :=
  { t with entries := removeRes id t.entries }

/-- One operation on the resource table. -/
inductive TableOp where
  | insert (res : casRes)
  | remove (id : Nat)
  | lookup (id : Nat)
  deriving DecidableEq

/-- The table after a sequence of operations. -/
def runTableOps (t : chronIntIdResTable) : List TableOp → chronIntIdResTable
  | [] => t
  | TableOp.insert res :: rest => runTableOps (tableInsert t res).2 rest
  | TableOp.remove id :: rest => runTableOps (tableRemove t id) rest
  | TableOp.lookup _ :: rest => runTableOps t rest

/-- A table with two resources, ids 0 and 1. -/
def smallTable : chronIntIdResTable :=
  { entries := [(1, 20), (0, 10)], allocId := 2 }

/-! ## The remaining integer conversions (`cvtFast.c`) -/

/-- The constant `CHAR_MIN` for a signed `char` of 8 bits. -/
def CHAR_MIN : Int := -128

/-- The constant `SHRT_MIN` for a `short` of 16 bits. -/
def SHRT_MIN : Int := -32768

/-- The function `cvtCharToString`; `val` is an `unsigned char`, so the magnitude is taken
modulo 256.  The result is `none` in the `CHAR_MIN` case, which is handed to `sprintf`,
and when the digit loop would store past the end of `digit[3]`. -/
def cvtCharToString (source : Int) : Option (List Char × Nat) :=
  if source = 0 then
    some (['0', Char.ofNat 0], 1)
  else if source < 0 then
    if source = CHAR_MIN then none
    else writeDigits 3 ['-'] (extractDigits 10 digit_to_ascii ((-source) % 256).toNat)
  else
    writeDigits 3 [] (extractDigits 10 digit_to_ascii (source % 256).toNat)

/-- The function `cvtUcharToString`, with the local array `digit[3]`. -/
def cvtUcharToString (source : Nat) : Option (List Char × Nat) :=
  if source = 0 then
    some (['0', Char.ofNat 0], 1)
  else
    writeDigits 3 [] (extractDigits 10 digit_to_ascii source)

/-- The function `cvtShortToString`, with the local array `digit[6]`; `none` also stands
for the `SHRT_MIN` case, which is handed to `sprintf`. -/
def cvtShortToString (source : Int) : Option (List Char × Nat) :=
  if source = 0 then
    some (['0', Char.ofNat 0], 1)
  else if source < 0 then
    if source = SHRT_MIN then none
    else writeDigits 6 ['-'] (extractDigits 10 digit_to_ascii (-source).toNat)
  else
    writeDigits 6 [] (extractDigits 10 digit_to_ascii source.toNat)

/-- The function `cvtUshortToString`, with the local array `digit[5]`. -/
def cvtUshortToString (source : Nat) : Option (List Char × Nat) :=
  if source = 0 then
    some (['0', Char.ofNat 0], 1)
  else
    writeDigits 5 [] (extractDigits 10 digit_to_ascii source)

/-- The function `cvtLongToOctalString`, with the local array `digit[16]`; the octal
digits are taken from `digit_to_ascii`.  The result is `none` also in the `LONG_MIN` case,
which is handed to `sprintf`. -/
def cvtLongToOctalString (source : Int) : Option (List Char × Nat) :=
  if source = 0 then
    some (['0', Char.ofNat 0], 1)
  else if source < 0 then
    if source = LONG_MIN then none
    else writeDigits 16 ['-'] (extractDigits 8 digit_to_ascii (-source).toNat)
  else
    writeDigits 16 [] (extractDigits 8 digit_to_ascii source.toNat)

/-! ## The node pool of `epicsList` (`epicsListBase.cpp`) -/

/-- A block of list nodes (`epicsListNodeBlock`); only its identity matters here. -/
abbrev epicsListNodeBlock := Nat

/-- A list node inside a block: the block and the position of the node in it. -/
structure epicsListNode where
  block : epicsListNodeBlock
  index : Nat
  deriving DecidableEq, Repr

/-- The first node of a block, `block->first ()`. -/
def epicsListNodeBlock.first (block : epicsListNodeBlock) : epicsListNode :=
  { block := block, index := 0 }

/-- The members of `epicsListNodePool`.  The link classes of `epicsListBase.h` are not
among the sources at hand: a chain of blocks hanging off a link (`_blocks`, and the shared
`_store`) is held as the list of its blocks, `hasNext` tells whether it is not empty,
`extract` takes the first block off and `append` puts a block on it; `_free` is the node
that the link `_free` points at, `none` when it has no next. -/
structure epicsListNodePool where
  _free : Option epicsListNode
  _blocks : List epicsListNodeBlock
  deriving DecidableEq, Repr

/-- The ways in which `extend` does not return. -/
inductive ExtendError where
  /-- The assertion `assert (!_free.hasNext ())` failed. -/
  | assertFailed
  /-- The call `cantProceed ("epicsList: out of memory")`. -/
  | cantProceed
  deriving DecidableEq, Repr

/-- The method `epicsListNodePool::extend`.  `store` is the shared `_store`, `newBlock` is
what `new epicsListNodeBlock` gives when it is reached (`none` for a null pointer).  The
result is the pool and the store afterwards.  Other threads are left out: the store is the
same at the test outside the lock and at the test inside it. -/
def extend (pool : epicsListNodePool) (store : List epicsListNodeBlock)
    (newBlock : Option epicsListNodeBlock) :
    Except ExtendError (epicsListNodePool × List epicsListNodeBlock) :=
  if pool._free.isSome then
    Except.error ExtendError.assertFailed
  else
    let taken : Option epicsListNodeBlock × List epicsListNodeBlock :=
      match store with
      | b :: rest => (some b, rest)
      | [] => (none, [])
    let block : Option epicsListNodeBlock :=
      match taken.1 with
      | some b => some b
      | none => newBlock
    match block with
    | none => Except.error ExtendError.cantProceed
    | some b =>
      Except.ok ({ _free := some b.first, _blocks := pool._blocks ++ [b] }, taken.2)

/-- A pool with two blocks and no free node. -/
def usedUpPool : epicsListNodePool :=
  { _free := none, _blocks := [3, 4] }

/-! ## Concrete inputs -/

/-- An attach call whose allocation succeeds. -/
def goodCall : AttachCall :=
  { addr := 1, autoBeaconAddr := true, addConfigBeaconAddr := false, allocOk := true }

/-- An attach call whose allocation fails. -/
def failedCall : AttachCall :=
  { addr := 2, autoBeaconAddr := true, addConfigBeaconAddr := false, allocOk := false }

/-- The server built when the configuration fetch fails and one interface is attached:
the ceiling is the default of 15 seconds. -/
def defaultServer : caServerI :=
  { beaconPeriod := 1 / 1000
    maxBeaconInterval := 15
    debugLevel := 0
    nEventsProcessed := 0
    nEventsPosted := 0
    beaconCounter := 0
    clientList := []
    intfList := [⟨1, true, false⟩] }

/-- The server built when the configuration yields a ceiling of half a millisecond and
one interface is attached. -/
def lowCeilingServer : caServerI :=
  { defaultServer with maxBeaconInterval := 1 / 2000 }

/-- The default server with one client installed. -/
def clientServer : caServerI :=
  installClient defaultServer 7

/-- A server with three clients and two interfaces. -/
def crowdedServer : caServerI :=
  { defaultServer with
    clientList := [4, 5, 6]
    intfList := [⟨1, true, false⟩, ⟨2, false, true⟩] }

/-! ## The beacon schedule -/

/-- C1: `advanceBeaconPeriod` leaves the period `p` alone when `p >= m`, where `m` is the
ceiling, and otherwise sets it to `min (2 * p) m`; no other member of the server
(counter, ceiling, client list, interface list, statistics) changes. -/
theorem advanceBeaconPeriod_spec (s : caServerI) :
    advanceBeaconPeriod s =
      { s with beaconPeriod :=
          if s.beaconPeriod ≥ s.maxBeaconInterval then s.beaconPeriod
          else min (2 * s.beaconPeriod) s.maxBeaconInterval } := by
  unfold advanceBeaconPeriod
  by_cases h : s.beaconPeriod ≥ s.maxBeaconInterval
  · simp [h]
  · simp only [h, if_false]
    by_cases h2 : s.beaconPeriod + s.beaconPeriod ≥ s.maxBeaconInterval
    · have : min (2 * s.beaconPeriod) s.maxBeaconInterval = s.maxBeaconInterval := by
        apply min_eq_right; linarith
      simp [h2, this]
    · have h3 : 2 * s.beaconPeriod ≤ s.maxBeaconInterval := by
        push_neg at h2; linarith
      have : min (2 * s.beaconPeriod) s.maxBeaconInterval = 2 * s.beaconPeriod :=
        min_eq_left h3
      have h4 : s.beaconPeriod + s.beaconPeriod ≤ s.maxBeaconInterval := by linarith
      simp [h2, h4, two_mul]

/-! ### Frame lemmas -/

theorem advance_beaconPeriod (s : caServerI) :
    (advanceBeaconPeriod s).beaconPeriod =
      if s.beaconPeriod ≥ s.maxBeaconInterval then s.beaconPeriod
      else if s.beaconPeriod + s.beaconPeriod ≥ s.maxBeaconInterval then s.maxBeaconInterval
      else s.beaconPeriod + s.beaconPeriod := by
  unfold advanceBeaconPeriod
  by_cases h : s.beaconPeriod ≥ s.maxBeaconInterval
  · simp [h]
  · by_cases h2 : s.beaconPeriod + s.beaconPeriod ≥ s.maxBeaconInterval <;> simp [h, h2]

@[simp] theorem advance_maxBeaconInterval (s : caServerI) :
    (advanceBeaconPeriod s).maxBeaconInterval = s.maxBeaconInterval := by
  unfold advanceBeaconPeriod
  by_cases h : s.beaconPeriod ≥ s.maxBeaconInterval
  · simp [h]
  · by_cases h2 : s.beaconPeriod + s.beaconPeriod ≥ s.maxBeaconInterval <;> simp [h, h2]

@[simp] theorem advance_beaconCounter (s : caServerI) :
    (advanceBeaconPeriod s).beaconCounter = s.beaconCounter := by
  unfold advanceBeaconPeriod
  by_cases h : s.beaconPeriod ≥ s.maxBeaconInterval
  · simp [h]
  · by_cases h2 : s.beaconPeriod + s.beaconPeriod ≥ s.maxBeaconInterval <;> simp [h, h2]

@[simp] theorem advance_intfList (s : caServerI) :
    (advanceBeaconPeriod s).intfList = s.intfList := by
  unfold advanceBeaconPeriod
  by_cases h : s.beaconPeriod ≥ s.maxBeaconInterval
  · simp [h]
  · by_cases h2 : s.beaconPeriod + s.beaconPeriod ≥ s.maxBeaconInterval <;> simp [h, h2]

@[simp] theorem sendBeacon_maxBeaconInterval (s : caServerI) :
    (sendBeacon s).1.maxBeaconInterval = s.maxBeaconInterval := by
  simp [sendBeacon]

theorem sendBeacon_beaconCounter (s : caServerI) :
    (sendBeacon s).1.beaconCounter = (s.beaconCounter + 1) % 2 ^ unsignedBits := by
  simp [sendBeacon]

theorem sendBeacon_beaconPeriod (s : caServerI) :
    (sendBeacon s).1.beaconPeriod = (advanceBeaconPeriod s).beaconPeriod := by
  simp [sendBeacon, advance_beaconPeriod]

@[simp] theorem sendBeaconN_maxBeaconInterval (n : Nat) (s : caServerI) :
    (sendBeaconN n s).maxBeaconInterval = s.maxBeaconInterval := by
  induction n generalizing s with
  | zero => rfl
  | succ n ih => simp [sendBeaconN, ih]

theorem sendBeaconN_succ (n : Nat) (s : caServerI) :
    sendBeaconN (n + 1) s = (sendBeacon (sendBeaconN n s)).1 := by
  induction n generalizing s with
  | zero => rfl
  | succ n ih =>
    show sendBeaconN (n + 1) (sendBeacon s).1 = _
    rw [ih]
    rfl

@[simp] theorem attachInterface_beaconPeriod (s : caServerI) (addr : caNetAddr)
    (a b ok : Bool) : (attachInterface s addr a b ok).2.beaconPeriod = s.beaconPeriod := by
  cases ok <;> rfl

@[simp] theorem attachInterface_maxBeaconInterval (s : caServerI) (addr : caNetAddr)
    (a b ok : Bool) :
    (attachInterface s addr a b ok).2.maxBeaconInterval = s.maxBeaconInterval := by
  cases ok <;> rfl

@[simp] theorem attachInterface_beaconCounter (s : caServerI) (addr : caNetAddr)
    (a b ok : Bool) : (attachInterface s addr a b ok).2.beaconCounter = s.beaconCounter := by
  cases ok <;> rfl

@[simp] theorem locateInterfaces_beaconPeriod (s : caServerI) (calls : List AttachCall) :
    (locateInterfaces s calls).beaconPeriod = s.beaconPeriod := by
  induction calls generalizing s with
  | nil => rfl
  | cons c rest ih => simp [locateInterfaces, ih]

@[simp] theorem locateInterfaces_maxBeaconInterval (s : caServerI)
    (calls : List AttachCall) :
    (locateInterfaces s calls).maxBeaconInterval = s.maxBeaconInterval := by
  induction calls generalizing s with
  | nil => rfl
  | cons c rest ih => simp [locateInterfaces, ih]

@[simp] theorem locateInterfaces_beaconCounter (s : caServerI) (calls : List AttachCall) :
    (locateInterfaces s calls).beaconCounter = s.beaconCounter := by
  induction calls generalizing s with
  | nil => rfl
  | cons c rest ih => simp [locateInterfaces, ih]

/-- The interfaces that discovery installs: one per call whose allocation succeeded, in
call order, after those already present. -/
theorem locateInterfaces_intfList (s : caServerI) (calls : List AttachCall) :
    (locateInterfaces s calls).intfList =
      s.intfList ++ (calls.filter (fun c => c.allocOk)).map
        (fun c => (⟨c.addr, c.autoBeaconAddr, c.addConfigBeaconAddr⟩ : casIntfOS)) := by
  induction calls generalizing s with
  | nil => simp [locateInterfaces]
  | cons c rest ih =>
    rw [locateInterfaces, ih]
    cases h : c.allocOk <;> simp [attachInterface, newCasIntfOS, h]

theorem constructConfig_beaconPeriod (status : Int) (maxPeriod : ℚ) :
    (constructConfig status maxPeriod).1.beaconPeriod = CAServerMinBeaconPeriod := by
  unfold constructConfig
  split <;> rfl

theorem constructConfig_beaconCounter (status : Int) (maxPeriod : ℚ) :
    (constructConfig status maxPeriod).1.beaconCounter = 0 := by
  unfold constructConfig
  split <;> rfl

theorem constructConfig_intfList (status : Int) (maxPeriod : ℚ) :
    (constructConfig status maxPeriod).1.intfList = [] := by
  unfold constructConfig
  split <;> rfl

theorem constructConfig_maxBeaconInterval (status : Int) (maxPeriod : ℚ) :
    (constructConfig status maxPeriod).1.maxBeaconInterval =
      if status ≠ 0 ∨ maxPeriod ≤ 0 then CAServerMaxBeaconPeriod else maxPeriod := by
  unfold constructConfig
  split <;> rfl

/-- What a successful construction returns. -/
theorem construct_ok_iff (status : Int) (maxPeriod : ℚ) (calls : List AttachCall)
    (s : caServerI) :
    (construct status maxPeriod calls).1 = Except.ok s ↔
      s = locateInterfaces (constructConfig status maxPeriod).1 calls ∧ s.intfList ≠ [] := by
  unfold construct
  by_cases h : (locateInterfaces (constructConfig status maxPeriod).1 calls).intfList.length = 0
  · simp only [h, if_true]
    constructor
    · intro h1; cases h1
    · rintro ⟨rfl, h2⟩
      exact absurd (List.length_eq_zero.mp h) h2
  · simp only [h, if_false]
    constructor
    · intro h1
      injection h1 with h1
      subst h1
      exact ⟨rfl, fun h2 => h (by simp [h2])⟩
    · rintro ⟨rfl, _⟩
      rfl

theorem construct_ok_beaconPeriod {status : Int} {maxPeriod : ℚ} {calls : List AttachCall}
    {s : caServerI} (h : (construct status maxPeriod calls).1 = Except.ok s) :
    s.beaconPeriod = CAServerMinBeaconPeriod := by
  rw [((construct_ok_iff _ _ _ _).mp h).1]
  simp [constructConfig_beaconPeriod]

theorem construct_ok_beaconCounter {status : Int} {maxPeriod : ℚ} {calls : List AttachCall}
    {s : caServerI} (h : (construct status maxPeriod calls).1 = Except.ok s) :
    s.beaconCounter = 0 := by
  rw [((construct_ok_iff _ _ _ _).mp h).1]
  simp [constructConfig_beaconCounter]

theorem construct_ok_maxBeaconInterval {status : Int} {maxPeriod : ℚ}
    {calls : List AttachCall} {s : caServerI}
    (h : (construct status maxPeriod calls).1 = Except.ok s) :
    s.maxBeaconInterval =
      if status ≠ 0 ∨ maxPeriod ≤ 0 then CAServerMaxBeaconPeriod else maxPeriod := by
  rw [((construct_ok_iff _ _ _ _).mp h).1]
  simp [constructConfig_maxBeaconInterval]

theorem construct_defaultServer :
    (construct 1 0 [goodCall]).1 = Except.ok defaultServer := by
  norm_num [construct, constructConfig, locateInterfaces, attachInterface, newCasIntfOS,
    goodCall, defaultServer, CAServerMinBeaconPeriod, CAServerMaxBeaconPeriod]

theorem construct_lowCeilingServer :
    (construct 0 (1 / 2000) [goodCall]).1 = Except.ok lowCeilingServer := by
  norm_num [construct, constructConfig, locateInterfaces, attachInterface, newCasIntfOS,
    goodCall, defaultServer, lowCeilingServer, CAServerMinBeaconPeriod]

/-! ### The period under repeated beacons -/

theorem minPeriod_pos : 0 < CAServerMinBeaconPeriod := by
  norm_num [CAServerMinBeaconPeriod]

theorem advance_ge (s : caServerI) (h : 0 ≤ s.beaconPeriod) :
    s.beaconPeriod ≤ (advanceBeaconPeriod s).beaconPeriod := by
  rw [advance_beaconPeriod]
  split_ifs <;> linarith

theorem advance_le (s : caServerI) (b : ℚ) (hp : s.beaconPeriod ≤ b)
    (hm : s.maxBeaconInterval ≤ b) : (advanceBeaconPeriod s).beaconPeriod ≤ b := by
  rw [advance_beaconPeriod]
  split_ifs <;> linarith

/-- Bounds kept by any number of beacons: the period never falls below a positive lower
bound it once had and never exceeds the larger of its first value and the ceiling. -/
theorem sendBeaconN_bounds (s : caServerI) (lo : ℚ) (hlo : 0 ≤ lo)
    (h0 : lo ≤ s.beaconPeriod) (n : Nat) :
    lo ≤ (sendBeaconN n s).beaconPeriod ∧
      (sendBeaconN n s).beaconPeriod ≤ max s.beaconPeriod s.maxBeaconInterval := by
  induction n with
  | zero => exact ⟨h0, le_max_left _ _⟩
  | succ n ih =>
    rw [sendBeaconN_succ, sendBeacon_beaconPeriod]
    constructor
    · exact le_trans ih.1 (advance_ge _ (le_trans hlo ih.1))
    · apply advance_le _ _ ih.2
      rw [sendBeaconN_maxBeaconInterval]
      exact le_max_right _ _

/-- On the plateau nothing moves any more. -/
theorem sendBeaconN_plateau (s : caServerI) (h : s.beaconPeriod ≥ s.maxBeaconInterval)
    (n : Nat) : (sendBeaconN n s).beaconPeriod = s.beaconPeriod := by
  induction n with
  | zero => rfl
  | succ n ih =>
    rw [sendBeaconN_succ, sendBeacon_beaconPeriod, advance_beaconPeriod,
      sendBeaconN_maxBeaconInterval, ih, if_pos h]

/-- Closed form of the schedule below the ceiling: doubling, clamped at the ceiling. -/
theorem sendBeaconN_closed (s : caServerI) (hp : 0 < s.beaconPeriod)
    (hlt : s.beaconPeriod < s.maxBeaconInterval) (k : Nat) :
    (sendBeaconN k s).beaconPeriod =
      if s.maxBeaconInterval ≤ s.beaconPeriod * 2 ^ k then s.maxBeaconInterval
      else s.beaconPeriod * 2 ^ k := by
  induction k with
  | zero => simp [sendBeaconN, not_le.mpr hlt]
  | succ k ih =>
    rw [sendBeaconN_succ, sendBeacon_beaconPeriod, advance_beaconPeriod,
      sendBeaconN_maxBeaconInterval, ih]
    have h2 : (1 : ℚ) ≤ 2 ^ k := one_le_pow₀ (by norm_num)
    have hmono : s.beaconPeriod * 2 ^ k ≤ s.beaconPeriod * 2 ^ (k + 1) := by
      rw [pow_succ]; nlinarith
    have hdouble : s.beaconPeriod * 2 ^ (k + 1) =
        s.beaconPeriod * 2 ^ k + s.beaconPeriod * 2 ^ k := by
      rw [pow_succ]; ring
    by_cases hk : s.maxBeaconInterval ≤ s.beaconPeriod * 2 ^ k
    · have hk1 : s.maxBeaconInterval ≤ s.beaconPeriod * 2 ^ (k + 1) := le_trans hk hmono
      simp [hk, hk1]
    · by_cases hk1 : s.maxBeaconInterval ≤ s.beaconPeriod * 2 ^ (k + 1)
      · have hk2 : s.maxBeaconInterval ≤ s.beaconPeriod * 2 ^ k + s.beaconPeriod * 2 ^ k :=
          hdouble ▸ hk1
        simp [hk, hk1, hk2]
      · have hk2 : ¬ s.maxBeaconInterval ≤ s.beaconPeriod * 2 ^ k + s.beaconPeriod * 2 ^ k :=
          hdouble ▸ hk1
        simp [hk, hk1, hk2, hdouble]

theorem sendBeaconN_counter (s : caServerI) (n : Nat) :
    (sendBeaconN n s).beaconCounter =
      if n = 0 then s.beaconCounter else (s.beaconCounter + n) % 2 ^ unsignedBits := by
  induction n with
  | zero => rfl
  | succ n ih =>
    rw [sendBeaconN_succ, sendBeacon_beaconCounter, ih]
    by_cases hn : n = 0
    · simp [hn]
    · simp [hn, Nat.mod_add_mod, Nat.add_assoc]

theorem reachable_minPeriod_le (s : caServerI) (h : Reachable s) :
    CAServerMinBeaconPeriod ≤ s.beaconPeriod := by
  induction h with
  | constructed status maxPeriod calls s hc => exact le_of_eq (construct_ok_beaconPeriod hc).symm
  | sendBeacon s _ ih =>
    rw [sendBeacon_beaconPeriod]
    exact le_trans ih (advance_ge _ (le_trans minPeriod_pos.le ih))
  | advanceBeaconPeriod s _ ih =>
    exact le_trans ih (advance_ge _ (le_trans minPeriod_pos.le ih))
  | attachInterface s addr a b ok _ ih => simpa using ih
  | installClient s c _ ih => exact ih
  | removeClient s c _ ih => exact ih
  | connectCB s accepted _ ih => cases accepted <;> exact ih
  | serverShow s level _ ih => exact ih

/-! ## Claims on the beacon period and counter -/

/-- C2 (as stated, refuted): a configured ceiling of half a millisecond is accepted at
construction, and in the constructed state and after any number of `sendBeacon` calls the
period (one millisecond) lies above the ceiling, so `currentPeriod <= maxPeriod` fails. -/
theorem beaconPeriod_exceeds_low_ceiling :
    (construct 0 (1 / 2000) [goodCall]).1 = Except.ok lowCeilingServer ∧
      ∀ n : Nat, ¬ ((sendBeaconN n lowCeilingServer).beaconPeriod ≤
        (sendBeaconN n lowCeilingServer).maxBeaconInterval) := by
  refine ⟨construct_lowCeilingServer, fun n => ?_⟩
  have hge : lowCeilingServer.beaconPeriod ≥ lowCeilingServer.maxBeaconInterval := by
    norm_num [lowCeilingServer, defaultServer]
  rw [sendBeaconN_plateau _ hge, sendBeaconN_maxBeaconInterval]
  norm_num [lowCeilingServer, defaultServer]

/-- C2 (amended): for every configuration accepted at construction and every state
reached from the constructed state by any number of `sendBeacon` calls, the period is at
least `minPeriod`; it is at most `maxPeriod` whenever `maxPeriod >= minPeriod`; and when
the configured ceiling is below `minPeriod` the period stays equal to `minPeriod`. -/
theorem beaconPeriod_bounds (status : Int) (maxPeriod : ℚ) (calls : List AttachCall)
    (s0 : caServerI) (n : Nat)
    (h : (construct status maxPeriod calls).1 = Except.ok s0) :
    CAServerMinBeaconPeriod ≤ (sendBeaconN n s0).beaconPeriod ∧
      (CAServerMinBeaconPeriod ≤ (sendBeaconN n s0).maxBeaconInterval →
        (sendBeaconN n s0).beaconPeriod ≤ (sendBeaconN n s0).maxBeaconInterval) ∧
      ((sendBeaconN n s0).maxBeaconInterval < CAServerMinBeaconPeriod →
        (sendBeaconN n s0).beaconPeriod = CAServerMinBeaconPeriod) := by
  have h0 := construct_ok_beaconPeriod h
  have hb := sendBeaconN_bounds s0 CAServerMinBeaconPeriod minPeriod_pos.le (le_of_eq h0.symm) n
  rw [h0] at hb
  rw [sendBeaconN_maxBeaconInterval]
  refine ⟨hb.1, fun hm => ?_, fun hm => ?_⟩
  · exact le_trans hb.2 (le_of_eq (max_eq_right hm))
  · exact le_antisymm (le_trans hb.2 (le_of_eq (max_eq_left hm.le))) hb.1

/-- Witness for C2 (amended): the default server after three beacons. -/
theorem beaconPeriod_bounds_witness :
    (construct 1 0 [goodCall]).1 = Except.ok defaultServer ∧
      CAServerMinBeaconPeriod ≤ (sendBeaconN 3 defaultServer).beaconPeriod ∧
      (CAServerMinBeaconPeriod ≤ (sendBeaconN 3 defaultServer).maxBeaconInterval →
        (sendBeaconN 3 defaultServer).beaconPeriod ≤
          (sendBeaconN 3 defaultServer).maxBeaconInterval) ∧
      ((sendBeaconN 3 defaultServer).maxBeaconInterval < CAServerMinBeaconPeriod →
        (sendBeaconN 3 defaultServer).beaconPeriod = CAServerMinBeaconPeriod) :=
  ⟨construct_defaultServer,
    beaconPeriod_bounds 1 0 [goodCall] defaultServer 3 construct_defaultServer⟩

/-- C3: with a ceiling of 15.0 a freshly constructed server reports a period of 0.001,
after `k` calls of `sendBeacon` it reports `0.001 * 2 ^ k` for every `k <= 13`, and it
reports exactly 15.0 after every `k >= 14` calls. -/
theorem beaconSchedule_default (status : Int) (maxPeriod : ℚ) (calls : List AttachCall)
    (s0 : caServerI) (h : (construct status maxPeriod calls).1 = Except.ok s0)
    (hm : s0.maxBeaconInterval = 15) (k : Nat) :
    getBeaconPeriod (sendBeaconN k s0) = if k ≤ 13 then (1 / 1000 : ℚ) * 2 ^ k else 15 := by
  have h1 : s0.beaconPeriod = 1 / 1000 := construct_ok_beaconPeriod h
  unfold getBeaconPeriod
  rw [sendBeaconN_closed s0 (by rw [h1]; norm_num) (by rw [h1, hm]; norm_num), h1, hm]
  by_cases hk : k ≤ 13
  · have h2 : (2 : ℚ) ^ k ≤ 2 ^ 13 := pow_le_pow_right₀ (by norm_num) hk
    have h3 : ¬ ((15 : ℚ) ≤ 1 / 1000 * 2 ^ k) := by
      norm_num at h2
      intro h4
      linarith
    rw [if_neg h3, if_pos hk]
  · have h2 : (2 : ℚ) ^ 14 ≤ 2 ^ k := pow_le_pow_right₀ (by norm_num) (by omega)
    have h3 : (15 : ℚ) ≤ 1 / 1000 * 2 ^ k := by
      norm_num at h2
      linarith
    rw [if_pos h3, if_neg hk]

/-- Witness for C3: the last doubled value, 8.192, and the clamp that follows it. -/
theorem beaconSchedule_default_witness :
    ((construct 1 0 [goodCall]).1 = Except.ok defaultServer ∧
        defaultServer.maxBeaconInterval = 15) ∧
      getBeaconPeriod (sendBeaconN 13 defaultServer) = 8192 / 1000 ∧
      getBeaconPeriod (sendBeaconN 14 defaultServer) = 15 :=
  ⟨⟨construct_defaultServer, rfl⟩,
    by
      rw [beaconSchedule_default 1 0 [goodCall] defaultServer construct_defaultServer rfl 13]
      norm_num,
    by
      rw [beaconSchedule_default 1 0 [goodCall] defaultServer construct_defaultServer rfl 14]
      norm_num⟩

/-- C4: after `N` calls of `sendBeacon` on a freshly constructed server the beacon
counter equals `N` modulo `2 ^ w`, with `w` the width of `unsigned`; and in every state
one call changes the counter by exactly `+1` modulo `2 ^ w`. -/
theorem beaconCounter_after (status : Int) (maxPeriod : ℚ) (calls : List AttachCall)
    (s0 : caServerI) (h : (construct status maxPeriod calls).1 = Except.ok s0) (N : Nat) :
    (sendBeaconN N s0).beaconCounter = N % 2 ^ unsignedBits ∧
      ∀ s : caServerI,
        (sendBeacon s).1.beaconCounter = (s.beaconCounter + 1) % 2 ^ unsignedBits := by
  refine ⟨?_, sendBeacon_beaconCounter⟩
  rw [sendBeaconN_counter, construct_ok_beaconCounter h]
  by_cases hN : N = 0
  · simp [hN]
  · simp [hN]

/-- Witness for C4: five calls more than a full cycle of the counter leave it at 5. -/
theorem beaconCounter_after_witness :
    (construct 1 0 [goodCall]).1 = Except.ok defaultServer ∧
      (sendBeaconN (2 ^ 32 + 5) defaultServer).beaconCounter = 5 :=
  ⟨construct_defaultServer, by
    rw [(beaconCounter_after 1 0 [goodCall] defaultServer construct_defaultServer
      (2 ^ 32 + 5)).1]
    norm_num [unsignedBits]⟩

/-- C8: in every reachable state (the constructed state followed by any operations of the
server: beacons, attached interfaces, installed and removed clients, accepted connections,
diagnostics) a call of `sendBeacon`, and likewise a call of `advanceBeaconPeriod`, leaves
the period at least as large as it was: it never decreases and is never reset. -/
theorem beaconPeriod_monotone (s : caServerI) (h : Reachable s) :
    s.beaconPeriod ≤ (sendBeacon s).1.beaconPeriod ∧
      s.beaconPeriod ≤ (advanceBeaconPeriod s).beaconPeriod := by
  have hpos : 0 ≤ s.beaconPeriod := le_trans minPeriod_pos.le (reachable_minPeriod_le s h)
  rw [sendBeacon_beaconPeriod]
  exact ⟨advance_ge s hpos, advance_ge s hpos⟩

/-- Witness for C8: the default server after one beacon, with a client installed after
that beacon. -/
theorem beaconPeriod_monotone_witness :
    Reachable (installClient (sendBeacon defaultServer).1 7) ∧
      (installClient (sendBeacon defaultServer).1 7).beaconPeriod ≤
        (sendBeacon (installClient (sendBeacon defaultServer).1 7)).1.beaconPeriod ∧
      (installClient (sendBeacon defaultServer).1 7).beaconPeriod ≤
        (advanceBeaconPeriod (installClient (sendBeacon defaultServer).1 7)).beaconPeriod :=
  ⟨Reachable.installClient _ 7 (Reachable.sendBeacon _
      (Reachable.constructed 1 0 [goodCall] _ construct_defaultServer)),
    beaconPeriod_monotone _
      (Reachable.installClient _ 7 (Reachable.sendBeacon _
        (Reachable.constructed 1 0 [goodCall] _ construct_defaultServer)))⟩

/-- C9 (as stated, refuted): the ceiling of half a millisecond is positive and accepted,
yet after no number of `sendBeacon` calls does `getBeaconPeriod` equal it. -/
theorem beaconPeriod_never_reaches_low_ceiling :
    (construct 0 (1 / 2000) [goodCall]).1 = Except.ok lowCeilingServer ∧
      0 < lowCeilingServer.maxBeaconInterval ∧
      ∀ n : Nat, getBeaconPeriod (sendBeaconN n lowCeilingServer) ≠
        lowCeilingServer.maxBeaconInterval := by
  refine ⟨construct_lowCeilingServer, by norm_num [lowCeilingServer, defaultServer],
    fun n => ?_⟩
  have hge : lowCeilingServer.beaconPeriod ≥ lowCeilingServer.maxBeaconInterval := by
    norm_num [lowCeilingServer, defaultServer]
  unfold getBeaconPeriod
  rw [sendBeaconN_plateau _ hge]
  norm_num [lowCeilingServer, defaultServer]

/-- C9 (amended): for every configured ceiling `maxPeriod >= minPeriod` there is a finite
`n` such that `getBeaconPeriod` equals `maxPeriod` after `n` calls of `sendBeacon` and
after every later call. -/
theorem beaconPeriod_converges (status : Int) (maxPeriod : ℚ) (calls : List AttachCall)
    (s0 : caServerI) (h : (construct status maxPeriod calls).1 = Except.ok s0)
    (hm : CAServerMinBeaconPeriod ≤ s0.maxBeaconInterval) :
    ∃ n : Nat, ∀ k : Nat, n ≤ k →
      getBeaconPeriod (sendBeaconN k s0) = s0.maxBeaconInterval := by
  have h0 := construct_ok_beaconPeriod h
  unfold getBeaconPeriod
  rcases eq_or_lt_of_le hm with heq | hlt
  · refine ⟨0, fun k _ => ?_⟩
    rw [sendBeaconN_plateau s0 (by rw [h0, heq]), h0, heq]
  · obtain ⟨n, hn⟩ := pow_unbounded_of_one_lt
      (s0.maxBeaconInterval / CAServerMinBeaconPeriod) (by norm_num : (1 : ℚ) < 2)
    refine ⟨n, fun k hk => ?_⟩
    rw [sendBeaconN_closed s0 (by rw [h0]; exact minPeriod_pos) (by rw [h0]; exact hlt), h0]
    have h2 : (2 : ℚ) ^ n ≤ 2 ^ k := pow_le_pow_right₀ (by norm_num) hk
    have h3 : s0.maxBeaconInterval < CAServerMinBeaconPeriod * 2 ^ n := by
      have := (div_lt_iff₀ minPeriod_pos).mp hn
      linarith
    have h4 : s0.maxBeaconInterval ≤ CAServerMinBeaconPeriod * 2 ^ k :=
      le_trans h3.le (mul_le_mul_of_nonneg_left h2 minPeriod_pos.le)
    rw [if_pos h4]

/-- Witness for C9 (amended): the default ceiling of 15 seconds. -/
theorem beaconPeriod_converges_witness :
    ((construct 1 0 [goodCall]).1 = Except.ok defaultServer ∧
        CAServerMinBeaconPeriod ≤ defaultServer.maxBeaconInterval) ∧
      ∃ n : Nat, ∀ k : Nat, n ≤ k →
        getBeaconPeriod (sendBeaconN k defaultServer) = defaultServer.maxBeaconInterval :=
  ⟨⟨construct_defaultServer, by norm_num [CAServerMinBeaconPeriod, defaultServer]⟩,
    beaconPeriod_converges 1 0 [goodCall] defaultServer construct_defaultServer
      (by norm_num [CAServerMinBeaconPeriod, defaultServer])⟩

/-! ## Claims on `sendBeacon`, construction and `attachInterface` -/

theorem sendBeaconLoop_eq_map (s : caServerI) (l : List casIntfOS) :
    sendBeaconLoop s l = l.map (fun intf => Effect.intfSendBeacon intf s.beaconCounter) := by
  induction l with
  | nil => rfl
  | cons intf rest ih => simp [sendBeaconLoop, ih]

/-- C5: one call of `sendBeacon` asks every attached interface exactly once, in list
order, to emit a beacon carrying the counter value `c` held before the call (so the
increment comes after the last request), and the state it leaves is the one obtained by
incrementing the counter modulo `2 ^ w` and then advancing the back-off period. -/
theorem sendBeacon_order (s : caServerI) :
    (sendBeacon s).2 =
        s.intfList.map (fun intf => Effect.intfSendBeacon intf s.beaconCounter) ∧
      (sendBeacon s).1 =
        advanceBeaconPeriod
          { s with beaconCounter := (s.beaconCounter + 1) % 2 ^ unsignedBits } ∧
      (sendBeacon s).1.intfList = s.intfList := by
  refine ⟨?_, rfl, ?_⟩
  · exact sendBeaconLoop_eq_map s s.intfList
  · simp [sendBeacon]

theorem construct_log (status : Int) (maxPeriod : ℚ) (calls : List AttachCall) :
    (construct status maxPeriod calls).2 =
      (constructConfig status maxPeriod).2 ++
        if (locateInterfaces (constructConfig status maxPeriod).1 calls).intfList.length = 0
        then [Effect.errMessage caStatus.S_cas_noInterface] else [] := by
  unfold construct
  by_cases hl :
      (locateInterfaces (constructConfig status maxPeriod).1 calls).intfList.length = 0
  · simp only [hl, if_true]
  · simp only [hl, if_false, List.append_nil]

theorem constructConfig_log (status : Int) (maxPeriod : ℚ) :
    (constructConfig status maxPeriod).2 =
      if status ≠ 0 ∨ maxPeriod ≤ 0 then
        [Effect.errlogFetchFailed, Effect.errlogSetting CAServerMaxBeaconPeriod]
      else [] := by
  unfold constructConfig
  split <;> rfl

/-- Construction succeeds exactly when discovery leaves an interface behind, whatever the
configuration was. -/
theorem construct_ok_exists_iff (status : Int) (maxPeriod : ℚ) (calls : List AttachCall) :
    (∃ s, (construct status maxPeriod calls).1 = Except.ok s) ↔
      ∃ c ∈ calls, c.allocOk = true := by
  have hl : (locateInterfaces (constructConfig status maxPeriod).1 calls).intfList ≠ [] ↔
      ∃ c ∈ calls, c.allocOk = true := by
    rw [locateInterfaces_intfList, constructConfig_intfList]
    simp [List.filter_eq_nil_iff]
  constructor
  · rintro ⟨s, hs⟩
    obtain ⟨rfl, h2⟩ := (construct_ok_iff _ _ _ _).mp hs
    exact hl.mp h2
  · intro h
    exact ⟨_, (construct_ok_iff _ _ _ _).mpr ⟨rfl, hl.mpr h⟩⟩

/-- C6: at construction, a successful fetch of a value `v > 0` makes the ceiling `v` (and
logs nothing); a failed fetch or a value `v <= 0` makes the ceiling 15.0 and logs the
two warning lines; and whether construction succeeds does not depend on the fetched
configuration at all: it succeeds as soon as one attach call succeeded. -/
theorem construct_config (status : Int) (maxPeriod : ℚ) (calls : List AttachCall) :
    (∀ s, (construct status maxPeriod calls).1 = Except.ok s →
        s.maxBeaconInterval = if status = 0 ∧ 0 < maxPeriod then maxPeriod else 15) ∧
      (status = 0 ∧ 0 < maxPeriod →
        Effect.errlogFetchFailed ∉ (construct status maxPeriod calls).2) ∧
      (status ≠ 0 ∨ maxPeriod ≤ 0 →
        [Effect.errlogFetchFailed, Effect.errlogSetting 15] <+:
          (construct status maxPeriod calls).2) ∧
      ((∃ c ∈ calls, c.allocOk = true) →
        ∃ s, (construct status maxPeriod calls).1 = Except.ok s) ∧
      ∀ (status2 : Int) (maxPeriod2 : ℚ),
        (∃ s, (construct status maxPeriod calls).1 = Except.ok s) ↔
          ∃ s, (construct status2 maxPeriod2 calls).1 = Except.ok s := by
  refine ⟨fun s hs => ?_, fun hgood => ?_, fun hbad => ?_,
    (construct_ok_exists_iff _ _ _).mpr, fun status2 maxPeriod2 => ?_⟩
  · rw [construct_ok_maxBeaconInterval hs]
    by_cases hc : status = 0 ∧ 0 < maxPeriod
    · have : ¬ (status ≠ 0 ∨ maxPeriod ≤ 0) := by
        rintro (h1 | h1)
        · exact h1 hc.1
        · exact absurd hc.2 (not_lt.mpr h1)
      rw [if_neg this, if_pos hc]
    · have : status ≠ 0 ∨ maxPeriod ≤ 0 := by
        by_contra hn
        push_neg at hn
        exact hc hn
      rw [if_pos this, if_neg hc]
      rfl
  · have : ¬ (status ≠ 0 ∨ maxPeriod ≤ 0) := by
      rintro (h1 | h1)
      · exact h1 hgood.1
      · exact absurd hgood.2 (not_lt.mpr h1)
    rw [construct_log, constructConfig_log, if_neg this]
    split <;> simp
  · rw [construct_log, constructConfig_log, if_pos hbad]
    exact ⟨_, rfl⟩
  · rw [construct_ok_exists_iff, construct_ok_exists_iff]

/-- Witness for C6: a non-positive configured value with one good and one failed attach
call gives a server whose ceiling is 15 seconds, with the warning logged. -/
theorem construct_config_witness :
    (∃ s, (construct 0 (-3) [failedCall, goodCall]).1 = Except.ok s ∧
        s.maxBeaconInterval = 15) ∧
      [Effect.errlogFetchFailed, Effect.errlogSetting 15] <+:
        (construct 0 (-3) [failedCall, goodCall]).2 := by
  have h := construct_config 0 (-3) [failedCall, goodCall]
  obtain ⟨s, hs⟩ := h.2.2.2.1 ⟨goodCall, by simp, rfl⟩
  refine ⟨⟨s, hs, ?_⟩, h.2.2.1 (Or.inr (by norm_num))⟩
  rw [h.1 s hs]
  norm_num

/-- C7: construction raises `NoInterface` if and only if the interface list is empty
after interface discovery, it raises nothing else, and it completes whenever at least one
attach call succeeded, however many others returned `NoMemory`. -/
theorem construct_noInterface_iff (status : Int) (maxPeriod : ℚ)
    (calls : List AttachCall) :
    ((construct status maxPeriod calls).1 = Except.error caStatus.S_cas_noInterface ↔
        (locateInterfaces (constructConfig status maxPeriod).1 calls).intfList = []) ∧
      (∀ e, (construct status maxPeriod calls).1 = Except.error e →
        e = caStatus.S_cas_noInterface) ∧
      ((∃ c ∈ calls, c.allocOk = true) →
        ∃ s, (construct status maxPeriod calls).1 = Except.ok s ∧
          s.intfList = (calls.filter (fun c => c.allocOk)).map
            (fun c => (⟨c.addr, c.autoBeaconAddr, c.addConfigBeaconAddr⟩ : casIntfOS))) := by
  refine ⟨?_, ?_, fun h => ?_⟩
  · unfold construct
    by_cases hl :
        (locateInterfaces (constructConfig status maxPeriod).1 calls).intfList.length = 0
    · simp only [hl, if_true, true_iff]
      exact List.length_eq_zero.mp hl
    · simp only [hl, if_false]
      constructor
      · intro h1; cases h1
      · intro h1; exact absurd (by simp [h1]) hl
  · intro e
    unfold construct
    by_cases hl :
        (locateInterfaces (constructConfig status maxPeriod).1 calls).intfList.length = 0
    · simp only [hl, if_true]
      intro h1
      injection h1 with h1
      exact h1.symm
    · simp only [hl, if_false]
      intro h1; cases h1
  · obtain ⟨s, hs⟩ := (construct_ok_exists_iff status maxPeriod calls).mpr h
    refine ⟨s, hs, ?_⟩
    rw [((construct_ok_iff _ _ _ _).mp hs).1, locateInterfaces_intfList,
      constructConfig_intfList, List.nil_append]

/-- Witness for C7: two failed attach calls around a good one still give a server, with
exactly the one interface. -/
theorem construct_noInterface_iff_witness :
    (∃ c ∈ [failedCall, goodCall, failedCall], c.allocOk = true) ∧
      ∃ s, (construct 0 2 [failedCall, goodCall, failedCall]).1 = Except.ok s ∧
        s.intfList = [⟨1, true, false⟩] :=
  ⟨⟨goodCall, by simp, rfl⟩,
    (construct_noInterface_iff 0 2 [failedCall, goodCall, failedCall]).2.2
      ⟨goodCall, by simp, rfl⟩⟩

/-- C10: when the allocation succeeds, `attachInterface` returns success and the
interface list afterwards is the old list with one new interface, built from the given
address and flags, appended at the end; nothing else in the server changes (client list,
beacon period, ceiling, beacon counter, statistics). -/
theorem attachInterface_success (s : caServerI) (addr : caNetAddr)
    (autoBeaconAddr addConfigBeaconAddr : Bool) :
    attachInterface s addr autoBeaconAddr addConfigBeaconAddr true =
      (caStatus.S_cas_success,
        { s with intfList := s.intfList ++ [⟨addr, autoBeaconAddr, addConfigBeaconAddr⟩] }) :=
  rfl

/-! ## Claims on the interface list and the client list -/

/-- C11: when the allocation of the interface fails, `attachInterface` returns `NoMemory`
and leaves the whole server state as it was; `NoMemory` is returned in no other case. -/
theorem attachInterface_noMemory (s : caServerI) (addr : caNetAddr)
    (autoBeaconAddr addConfigBeaconAddr allocOk : Bool) :
    attachInterface s addr autoBeaconAddr addConfigBeaconAddr false =
        (caStatus.S_cas_noMemory, s) ∧
      ((attachInterface s addr autoBeaconAddr addConfigBeaconAddr allocOk).1 =
          caStatus.S_cas_noMemory ↔ allocOk = false) := by
  refine ⟨rfl, ?_⟩
  cases allocOk <;> simp [attachInterface, newCasIntfOS]

/-- C13: `installClient` appends the client at the end of the client list; `removeClient`
of a client that is in the list removes exactly that entry and keeps the order of all
others; installing a client that is not in the list and then removing it gives the server
back as it was; and neither operation changes the interface list, the beacon period or
the beacon counter. -/
theorem installClient_removeClient (s : caServerI) (c : casStrmClient) :
    (installClient s c).clientList = s.clientList ++ [c] ∧
      (c ∈ s.clientList → ∃ l₁ l₂, c ∉ l₁ ∧ s.clientList = l₁ ++ c :: l₂ ∧
        (removeClient s c).clientList = l₁ ++ l₂) ∧
      (c ∉ s.clientList → removeClient (installClient s c) c = s) ∧
      ((installClient s c).intfList = s.intfList ∧
        (installClient s c).beaconPeriod = s.beaconPeriod ∧
        (installClient s c).beaconCounter = s.beaconCounter) ∧
      ((removeClient s c).intfList = s.intfList ∧
        (removeClient s c).beaconPeriod = s.beaconPeriod ∧
        (removeClient s c).beaconCounter = s.beaconCounter) := by
  refine ⟨rfl, fun h => List.exists_erase_eq h, fun h => ?_, ⟨rfl, rfl, rfl⟩, ⟨rfl, rfl, rfl⟩⟩
  have h1 : (s.clientList ++ [c]).erase c = s.clientList := by
    rw [List.erase_append_right _ h]
    simp
  show ({ s with clientList := (s.clientList ++ [c]).erase c } : caServerI) = s
  rw [h1]

/-- Witness for C13: client 8 is installed next to client 7 and removed again, and
client 7 is removed from the list that holds it. -/
theorem installClient_removeClient_witness :
    removeClient (installClient clientServer 8) 8 = clientServer ∧
      ∃ l₁ l₂, (7 : casStrmClient) ∉ l₁ ∧ clientServer.clientList = l₁ ++ 7 :: l₂ ∧
        (removeClient clientServer 7).clientList = l₁ ++ l₂ :=
  ⟨(installClient_removeClient clientServer 8).2.2.1
      (by simp [clientServer, installClient, defaultServer]),
    (installClient_removeClient clientServer 7).2.1
      (by simp [clientServer, installClient, defaultServer])⟩

/-! ## Destruction -/

theorem destroyClientsLoop_spec (l : List casStrmClient) :
    ∀ (s : caServerI) (fuel : Nat), s.clientList = l → l.length < fuel →
      destroyClientsLoop fuel s l.head? =
        some ({ s with clientList := [] }, l.map Effect.clientDestroy) := by
  induction l with
  | nil =>
    intro s fuel hs hf
    cases fuel with
    | zero => exact absurd hf (Nat.lt_irrefl 0)
    | succ n =>
      simp only [List.head?_nil, destroyClientsLoop, List.map_nil]
      rw [← hs]
  | cons c rest ih =>
    intro s fuel hs hf
    cases fuel with
    | zero => exact absurd hf (Nat.not_lt_zero _)
    | succ n =>
      have hn : rest.length < n := by
        simp only [List.length_cons] at hf
        omega
      have h1 : (clientDestroy s c).clientList = rest := by
        simp [clientDestroy, removeClient, hs]
      have h2 : nextInList s.clientList c = rest.head? := by
        simp [hs, nextInList]
      simp only [List.head?_cons, destroyClientsLoop, h2, ih (clientDestroy s c) n h1 hn,
        List.map_cons]
      rfl

theorem deleteInterfacesLoop_spec (l : List casIntfOS) :
    ∀ s : caServerI, deleteInterfacesLoop s l =
      ({ s with intfList := [] }, l.map Effect.intfDelete) := by
  induction l with
  | nil => intro s; rfl
  | cons i rest ih =>
    intro s
    simp only [deleteInterfacesLoop, ih, List.map_cons]

/-- C14: the destructor destroys every client exactly once, in client-list order, although
each `destroy` takes its client out of the list during the traversal, and deletes every
interface exactly once after all clients were destroyed; afterwards the client list and
the interface list are empty and nothing else has changed.  The loop over the clients
ends: a number of loop tests above the length of the client list is enough. -/
theorem destruct_spec (s : caServerI) (fuel : Nat) (h : s.clientList.length < fuel) :
    destruct fuel s =
      some ({ s with clientList := [], intfList := [] },
        s.clientList.map Effect.clientDestroy ++ s.intfList.map Effect.intfDelete) := by
  unfold destruct
  rw [destroyClientsLoop_spec s.clientList s fuel rfl h]
  simp only [deleteInterfacesLoop_spec]

/-- Witness for C14: a server with three clients and two interfaces. -/
theorem destruct_spec_witness :
    crowdedServer.clientList.length < 4 ∧
      destruct 4 crowdedServer =
        some ({ defaultServer with clientList := [], intfList := [] },
          [Effect.clientDestroy 4, Effect.clientDestroy 5, Effect.clientDestroy 6,
            Effect.intfDelete ⟨1, true, false⟩, Effect.intfDelete ⟨2, false, true⟩]) :=
  ⟨by decide, destruct_spec crowdedServer 4 (by decide)⟩

/-! ## Accepting a connection -/

/-- C15: when the interface created a connection, `connectCB` sends exactly one version
handshake on it and then flushes it exactly once, in that order; when no connection was
created nothing is sent or flushed; in both cases the server state is unchanged. -/
theorem connectCB_spec (s : caServerI) (accepted : Option casStrmClient) :
    connectCB s accepted =
      (s, match accepted with
          | some pClient => [Effect.sendVersion pClient, Effect.flush pClient]
          | none => []) := by
  cases accepted <;> rfl

/-! ## Diagnostics -/

theorem showClientsLoop_eq_map (level : Nat) (l : List casStrmClient) :
    showClientsLoop level l = l.map (fun c => Effect.clientShow c level) := by
  induction l with
  | nil => rfl
  | cons c rest ih => simp [showClientsLoop, ih]

theorem showIntfLoop_eq_map (level : Nat) (l : List casIntfOS) :
    showIntfLoop level l = l.map (fun i => Effect.intfShow i level) := by
  induction l with
  | nil => rfl
  | cons i rest ih => simp [showIntfLoop, ih]

/-- C17 (as stated, refuted): `show (0)` on a server with one client and one interface
asks the client and the interface to show themselves. -/
theorem show_zero_dumps_clients_and_interfaces :
    (serverShow clientServer 0).2 =
      [Effect.printStatus, Effect.mutexShow 0, Effect.clientShow 7 0,
        Effect.intfShow ⟨1, true, false⟩ 0] := by
  simp [serverShow, clientServer, installClient, defaultServer, showClientsLoop,
    showIntfLoop]

/-- C17 (amended): for every level, `show (level)` prints the status line, shows the
mutex, and asks every client of the client list and every interface of the interface list,
in list order, to show itself at that level; exactly when `level >= 1` it also prints the
free-list line and dumps the resource table, so `show (0)` dumps no resource-table
content. -/
theorem show_spec (s : caServerI) (level : Nat) :
    (serverShow s level).2 =
      [Effect.printStatus, Effect.mutexShow level] ++
        s.clientList.map (fun c => Effect.clientShow c level) ++
        s.intfList.map (fun i => Effect.intfShow i level) ++
        (if level ≥ 1 then
          [Effect.printBytesReserved 0, Effect.printResTableHeader, Effect.resTableShow level]
        else []) := by
  simp only [serverShow, showClientsLoop_eq_map, showIntfLoop_eq_map, List.append_assoc]

/-- C18: `show (level)` and `getBeaconPeriod ()` leave the server state (client list,
interface list, beacon period, beacon counter, ceiling) unchanged, and `getBeaconPeriod`
returns the current period. -/
theorem show_getBeaconPeriod_readonly (s : caServerI) (level : Nat) :
    (serverShow s level).1 = s ∧ getBeaconPeriod s = s.beaconPeriod :=
  ⟨rfl, rfl⟩

/-! ## The mutex in `sendBeacon` -/

theorem withMutex_loopSteps (s : caServerI) (held : Bool) (l : List casIntfOS)
    (tail : List Step) :
    withMutex held (sendBeaconLoopSteps s l ++ tail) =
      (sendBeaconLoopSteps s l).map (fun st => (st, held)) ++ withMutex held tail := by
  induction l with
  | nil => rfl
  | cons i rest ih => simp [sendBeaconLoopSteps, withMutex, ih]

theorem withMutex_advanceSteps (s : caServerI) (held : Bool) :
    withMutex held (advanceBeaconPeriodSteps s) =
      (advanceBeaconPeriodSteps s).map (fun st => (st, held)) := by
  unfold advanceBeaconPeriodSteps
  by_cases h : s.beaconPeriod ≥ s.maxBeaconInterval
  · simp [h, withMutex]
  · by_cases h2 : s.beaconPeriod + s.beaconPeriod ≥ s.maxBeaconInterval <;>
      simp [h, h2, withMutex]

/-- C19 (as stated, refuted): in a run of `sendBeacon` the beacon counter is written
while the mutex is not held. -/
theorem sendBeacon_counterWrite_unlocked :
    (Step.counterWrite, false) ∈ withMutex false (sendBeaconSteps defaultServer) := by
  simp [sendBeaconSteps, sendBeaconLoopSteps, defaultServer, withMutex]

/-- C19 (amended): `sendBeacon` holds the server-wide mutex only while it traverses the
interface list: the reads of the beacon counter that are handed to the interfaces are made
while the mutex is held; the increment of the counter (its read and its write) and every
read and write of the beacon period in `advanceBeaconPeriod` are made after the mutex was
released. -/
theorem sendBeacon_mutex_scope (s : caServerI) :
    withMutex false (sendBeaconSteps s) =
      [(Step.mutexLock, true)] ++
        (sendBeaconLoopSteps s s.intfList).map (fun st => (st, true)) ++
        [(Step.mutexUnlock, false), (Step.counterRead, false), (Step.counterWrite, false)] ++
        (advanceBeaconPeriodSteps
          { s with beaconCounter := (s.beaconCounter + 1) % 2 ^ unsignedBits }).map
          (fun st => (st, false)) := by
  have hs : sendBeaconSteps s =
      Step.mutexLock :: (sendBeaconLoopSteps s s.intfList ++
        (Step.mutexUnlock :: Step.counterRead :: Step.counterWrite ::
          advanceBeaconPeriodSteps
            { s with beaconCounter := (s.beaconCounter + 1) % 2 ^ unsignedBits })) := by
    simp [sendBeaconSteps]
  rw [hs]
  simp only [withMutex, withMutex_loopSteps, withMutex_advanceSteps]
  simp

/-! ## Fast conversion of a floating point number to a string -/

/-- C20 (the code departs from the claim): for the value 10,000,000 and precision 0, which
the routine keeps on its own fast path, the string written starts with the character
`:` (the code of `0` plus ten) and not with a decimal digit; the value returned is 7. -/
theorem cvtDoubleToString_ten_million :
    cvtDoubleToString 10000000 0 =
      some ([Char.ofNat 58, Char.ofNat 48, Char.ofNat 48, Char.ofNat 48, Char.ofNat 48,
        Char.ofNat 48, Char.ofNat 48], 7) ∧
      (Char.ofNat 58).isDigit = false := by
  refine ⟨?_, by decide⟩
  have h1 : Rat.floor (10000000 : ℚ) = 10000000 := by
    rw [Rat.floor_def']; norm_num
  have h2 : Rat.floor (0 : ℚ) = 0 := by
    rw [Rat.floor_def']; norm_num
  have hc : ¬ ((0 : ℕ) > 8 ∨ (10000000 : ℚ) > 10000000 ∨ (10000000 : ℚ) < -10000000) := by
    norm_num
  have hneg : ¬ ((10000000 : ℚ) < 0) := by norm_num
  have h4 : (10000000 : ℤ).toNat = 10000000 := by decide
  have h3 : ((10000000 : ℚ) - ((10000000 : ℕ) : ℚ)) *
      ((frac_multiplier.getD 0 0 : ℕ) : ℚ) * 10 = 0 := by
    norm_num
  simp only [cvtDoubleToString, hc, hneg, if_false, h1, h4, h3, h2]
  decide

/-! ## Bit fields -/

theorem intWrap_of_small (x : Int) (h0 : 0 ≤ x) (h1 : x ≤ 2 ^ 30) : intWrap x = x := by
  unfold intWrap
  norm_num at h1 ⊢
  omega

/-- In the range that `int` arithmetic allows, the mask is `2 ^ bitFieldLength - 1`. -/
theorem bitFieldMask_eq (w len : Nat) (h30 : len ≤ 30) (hw : len ≤ w) :
    bitFieldMask w len = 2 ^ len - 1 := by
  unfold bitFieldMask
  have h1 : (1 : Int) ≤ 2 ^ len := one_le_pow₀ (by norm_num)
  have h2 : (2 : Int) ^ len ≤ 2 ^ 30 := pow_le_pow_right₀ (by norm_num) h30
  have h3 : (2 : Int) ^ len ≤ 2 ^ w := pow_le_pow_right₀ (by norm_num) hw
  rw [intWrap_of_small _ (by linarith) h2, intWrap_of_small _ (by linarith) (by linarith)]
  rw [Int.emod_eq_of_lt (by linarith) (by linarith)]
  have h4 : ((2 : Int) ^ len - 1) = ((2 ^ len - 1 : Nat) : Int) := by
    have : 1 ≤ 2 ^ len := Nat.one_le_two_pow
    push_cast [Nat.cast_sub this]
    rfl
  rw [h4, Int.toNat_natCast]

/-- The bits of the value that `cvtUlongToBits` returns, in the range that `int`
arithmetic allows. -/
theorem cvtUlongToBits_testBit (w src dest off len : Nat) (h30 : len ≤ 30)
    (hfit : off + len ≤ w) (i : Nat) :
    (cvtUlongToBits w src dest off len).testBit i =
      if off ≤ i ∧ i < off + len then src.testBit (i - off)
      else (dest.testBit i && decide (i < w)) := by
  unfold cvtUlongToBits
  rw [bitFieldMask_eq w len h30 (by omega)]
  simp only [Nat.testBit_or, Nat.testBit_and, Nat.testBit_xor, Nat.testBit_mod_two_pow,
    Nat.testBit_shiftLeft, Nat.testBit_two_pow_sub_one]
  by_cases h1 : off ≤ i
  · by_cases h2 : i < off + len
    · have h3 : i < w := by omega
      have h4 : i - off < len := by omega
      simp [h1, h2, h3, h4]
    · have h4 : ¬ (i - off < len) := by omega
      simp [h1, h2, h4]
  · have h2 : ¬ (i ≥ off) := h1
    simp [h1, h2]

/-- C21: bit field round trip.  For `bitFieldLength <= 30` and a field that lies within the
`w` bits of an `unsigned long`, extracting the field that was just inserted gives
`src mod 2 ^ bitFieldLength`. -/
theorem bitField_roundtrip (w src dest bitFieldOffset bitFieldLength : Nat)
    (h30 : bitFieldLength ≤ 30) (hfit : bitFieldOffset + bitFieldLength ≤ w) :
    cvtBitsToUlong w (cvtUlongToBits w src dest bitFieldOffset bitFieldLength)
        bitFieldOffset bitFieldLength =
      src % 2 ^ bitFieldLength := by
  apply Nat.eq_of_testBit_eq
  intro i
  unfold cvtBitsToUlong
  rw [bitFieldMask_eq w bitFieldLength h30 (by omega)]
  simp only [Nat.testBit_and, Nat.testBit_shiftRight, Nat.testBit_two_pow_sub_one,
    Nat.testBit_mod_two_pow, cvtUlongToBits_testBit w src dest _ _ h30 hfit]
  by_cases h : i < bitFieldLength
  · have h1 : bitFieldOffset ≤ bitFieldOffset + i ∧
        bitFieldOffset + i < bitFieldOffset + bitFieldLength := by omega
    simp [h, h1]
  · simp [h]

/-- Witness for C21: a field of four bits at offset eight in a word of 32 bits. -/
theorem bitField_roundtrip_witness :
    ((4 : Nat) ≤ 30 ∧ 8 + 4 ≤ 32) ∧
      cvtBitsToUlong 32 (cvtUlongToBits 32 43981 305419896 8 4) 8 4 = 43981 % 2 ^ 4 :=
  ⟨by decide, bitField_roundtrip 32 43981 305419896 8 4 (by decide) (by decide)⟩

/-- C30: for `bitFieldLength <= 30` and a field that lies within the `w` bits of an
`unsigned long`, every bit of the result of `cvtUlongToBits` outside the positions
`[bitFieldOffset, bitFieldOffset + bitFieldLength)` equals the bit of `dest` at that
position, and the bits of `src` at or above position `bitFieldLength` do not influence
the result. -/
theorem cvtUlongToBits_frame (w src dest bitFieldOffset bitFieldLength : Nat)
    (h30 : bitFieldLength ≤ 30) (hfit : bitFieldOffset + bitFieldLength ≤ w)
    (hdest : dest < 2 ^ w) :
    (∀ i, i < bitFieldOffset ∨ bitFieldOffset + bitFieldLength ≤ i →
        (cvtUlongToBits w src dest bitFieldOffset bitFieldLength).testBit i =
          dest.testBit i) ∧
      cvtUlongToBits w src dest bitFieldOffset bitFieldLength =
        cvtUlongToBits w (src % 2 ^ bitFieldLength) dest bitFieldOffset bitFieldLength := by
  constructor
  · intro i hi
    rw [cvtUlongToBits_testBit w src dest _ _ h30 hfit]
    have h1 : ¬ (bitFieldOffset ≤ i ∧ i < bitFieldOffset + bitFieldLength) := by omega
    rw [if_neg h1]
    by_cases hw : i < w
    · simp [hw]
    · have h2 : dest < 2 ^ i :=
        lt_of_lt_of_le hdest (Nat.pow_le_pow_right (by norm_num) (by omega))
      simp [hw, Nat.testBit_lt_two_pow h2]
  · apply Nat.eq_of_testBit_eq
    intro i
    rw [cvtUlongToBits_testBit w src dest _ _ h30 hfit,
      cvtUlongToBits_testBit w _ dest _ _ h30 hfit]
    by_cases h1 : bitFieldOffset ≤ i ∧ i < bitFieldOffset + bitFieldLength
    · have h2 : i - bitFieldOffset < bitFieldLength := by omega
      simp [h1, h2]
    · simp [h1]

/-- Witness for C30: a field of four bits at offset eight in a word of 32 bits; the source
has bits above the field and they are dropped. -/
theorem cvtUlongToBits_frame_witness :
    (((4 : Nat) ≤ 30 ∧ 8 + 4 ≤ 32) ∧ 305419896 < 2 ^ 32) ∧
      (∀ i, i < 8 ∨ 8 + 4 ≤ i →
        (cvtUlongToBits 32 43981 305419896 8 4).testBit i = Nat.testBit 305419896 i) ∧
      cvtUlongToBits 32 43981 305419896 8 4 =
        cvtUlongToBits 32 (43981 % 2 ^ 4) 305419896 8 4 :=
  ⟨by decide,
    cvtUlongToBits_frame 32 43981 305419896 8 4 (by decide) (by decide) (by decide)⟩

/-! ## Compact conversion -/

/-- C22: `cvtDoubleToCompactString` (and `cvtFloatToCompactString`, which has the same
body) returns what `cvtDoubleToString` returns when `10^-4 < |v| < 10^4` or `v = 0`, and
what the E-format routine returns otherwise; the values `10^4`, `-10^4`, `10^-4` and
`-10^-4` themselves go to the E-format routine. -/
theorem cvtDoubleToCompactString_dispatch
    (expString : ℚ → Nat → Option (List Char × Nat)) (v : ℚ) (p : Nat) :
    cvtDoubleToCompactString expString v p = compactStringSpec expString v p ∧
      cvtDoubleToCompactString expString 10000 p = expString 10000 p ∧
      cvtDoubleToCompactString expString (-10000) p = expString (-10000) p ∧
      cvtDoubleToCompactString expString (1 / 10000) p = expString (1 / 10000) p ∧
      cvtDoubleToCompactString expString (-(1 / 10000)) p = expString (-(1 / 10000)) p := by
  refine ⟨?_, ?_, ?_, ?_, ?_⟩
  · have hiff : ((v < 10000 ∧ v > 1 / 10000) ∨ (v > -10000 ∧ v < -(1 / 10000)) ∨ v = 0) ↔
        ((1 / 10000 < |v| ∧ |v| < 10000) ∨ v = 0) := by
      rcases le_or_lt 0 v with hv | hv
      · rw [abs_of_nonneg hv]
        constructor
        · rintro (⟨h1, h2⟩ | ⟨_, h2⟩ | h)
          · exact Or.inl ⟨h2, h1⟩
          · exfalso; linarith
          · exact Or.inr h
        · rintro (⟨h1, h2⟩ | h)
          · exact Or.inl ⟨h2, h1⟩
          · exact Or.inr (Or.inr h)
      · rw [abs_of_neg hv]
        constructor
        · rintro (⟨_, h2⟩ | ⟨h1, h2⟩ | h)
          · exfalso; linarith
          · exact Or.inl ⟨by linarith, by linarith⟩
          · exact Or.inr h
        · rintro (⟨h1, h2⟩ | h)
          · exact Or.inr (Or.inl ⟨by linarith, by linarith⟩)
          · exact Or.inr (Or.inr h)
    unfold cvtDoubleToCompactString compactStringSpec
    by_cases hc : (1 / 10000 < |v| ∧ |v| < 10000) ∨ v = 0
    · rw [if_pos (hiff.mpr hc), if_pos hc]
    · rw [if_neg (fun h => hc (hiff.mp h)), if_neg hc]
  · unfold cvtDoubleToCompactString
    rw [if_neg (by norm_num)]
  · unfold cvtDoubleToCompactString
    rw [if_neg (by norm_num)]
  · unfold cvtDoubleToCompactString
    rw [if_neg (by norm_num)]
  · unfold cvtDoubleToCompactString
    rw [if_neg (by norm_num)]

/-! ## Integers to strings -/

theorem extractDigits_eq_digits (base : Nat) (table : List Char) (hb : 1 < base) (n : Nat) :
    extractDigits base table n =
      (Nat.digits base n).map (fun d => table.getD d (Char.ofNat 0)) := by
  induction n using Nat.strong_induction_on with
  | _ n ih =>
    rw [extractDigits]
    by_cases hn : n = 0
    · simp [hn]
    · have hc : ¬ (n = 0 ∨ base ≤ 1) := by omega
      have hmod : n - n / base * base = n % base :=
        Nat.sub_eq_of_eq_add (by rw [Nat.mul_comm]; exact (Nat.mod_add_div n base).symm)
      rw [dif_neg hc]
      show table.getD (n - n / base * base) (Char.ofNat 0) ::
        extractDigits base table (n / base) = _
      rw [Nat.digits_def' hb (Nat.pos_of_ne_zero hn), List.map_cons,
        ih (n / base) (Nat.div_lt_self (Nat.pos_of_ne_zero hn) hb), hmod]

theorem digits_length_le (base size n : Nat) (hb : 1 < base) (hn : n < base ^ size) :
    (Nat.digits base n).length ≤ size := by
  by_cases h0 : n = 0
  · simp [h0]
  · have h1 := Nat.base_pow_length_digits_le base n hb h0
    have h2 : base ^ (Nat.digits base n).length < base ^ (size + 1) := by
      calc base ^ (Nat.digits base n).length ≤ base * n := h1
        _ < base * base ^ size := mul_lt_mul_of_pos_left hn (by omega)
        _ = base ^ (size + 1) := by rw [pow_succ, Nat.mul_comm]
    have h3 := (Nat.pow_lt_pow_iff_right hb).mp h2
    omega

/-- What the digit loop and the copy loop write for a number that is not zero and fits
the buffer: the canonical digits. -/
theorem writeDigits_extractDigits (base size : Nat) (table sign : List Char) (n : Nat)
    (hb : 1 < base) (hn : n ≠ 0) (hfit : n < base ^ size) :
    writeDigits size sign (extractDigits base table n) =
      some (sign ++ canonicalDigits base table n ++ [Char.ofNat 0],
        (sign ++ canonicalDigits base table n).length) := by
  have hlen : ¬ ((extractDigits base table n).length > size) := by
    rw [extractDigits_eq_digits base table hb, List.length_map]
    exact not_lt.mpr (digits_length_le base size n hb hfit)
  unfold writeDigits canonicalDigits
  rw [if_neg hlen, if_neg hn, extractDigits_eq_digits base table hb, List.map_reverse]

theorem digitValue_decimal :
    ∀ d, d < 10 → digitValue 10 (digit_to_ascii.getD d (Char.ofNat 0)) = some d := by
  decide

theorem digitValue_hex :
    ∀ d, d < 16 → digitValue 16 (hex_digit_to_ascii.getD d (Char.ofNat 0)) = some d := by
  decide

theorem digitValue_minus (base : Nat) : digitValue base '-' = none := by
  unfold digitValue
  rw [if_neg (by decide), if_neg (by decide)]

theorem digitValue_zero (base : Nat) (hb : 0 < base) : digitValue base '0' = some 0 := by
  unfold digitValue
  rw [if_pos (by decide)]
  have h : ('0' : Char).toNat - 48 = 0 := by decide
  rw [h, if_pos hb]

theorem parseDigits_map (base : Nat) (f : Nat → Char) (M : List Nat) :
    ∀ acc : Nat, (∀ d ∈ M, digitValue base (f d) = some d) →
      parseDigits base (M.map f) acc = some (M.foldl (fun a d => a * base + d) acc) := by
  induction M with
  | nil => intro acc _; rfl
  | cons d rest ih =>
    intro acc h
    have hd : digitValue base (f d) = some d := h d (List.mem_cons_self _ _)
    simp only [List.map_cons, parseDigits, hd, List.foldl_cons]
    exact ih _ (fun x hx => h x (List.mem_cons_of_mem _ hx))

theorem foldl_reverse_digits (base n : Nat) :
    (Nat.digits base n).reverse.foldl (fun a d => a * base + d) 0 = n := by
  rw [List.foldl_reverse]
  have h := Nat.ofDigits_eq_foldr base (Nat.digits base n)
  rw [Nat.ofDigits_digits] at h
  have hf : (fun (x y : Nat) => y * base + x) = (fun (x y : Nat) => (x : Nat) + base * y) := by
    funext x y
    ring
  rw [hf]
  simpa using h.symm

/-- Reading the canonical digits back gives the number. -/
theorem parseDigits_canonicalDigits (base : Nat) (table : List Char) (n : Nat)
    (hb : 1 < base)
    (htable : ∀ d, d < base → digitValue base (table.getD d (Char.ofNat 0)) = some d) :
    parseDigits base (canonicalDigits base table n) 0 = some n := by
  unfold canonicalDigits
  by_cases hn : n = 0
  · rw [if_pos hn, hn]
    simp [parseDigits, digitValue_zero base (by omega)]
  · rw [if_neg hn, parseDigits_map base _ _ 0, foldl_reverse_digits]
    intro d hd
    exact htable d (Nat.digits_lt_base hb (List.mem_reverse.mp hd))

/-- The canonical digits start with a digit character, and that digit is not zero unless
the number is zero. -/
theorem canonicalDigits_head (base : Nat) (table : List Char) (n : Nat) (hb : 1 < base)
    (htable : ∀ d, d < base → digitValue base (table.getD d (Char.ofNat 0)) = some d) :
    ∃ c rest d, canonicalDigits base table n = c :: rest ∧ digitValue base c = some d ∧
      (n ≠ 0 → d ≠ 0) := by
  unfold canonicalDigits
  by_cases hn : n = 0
  · exact ⟨'0', [], 0, by rw [if_pos hn], digitValue_zero base (by omega),
      fun h => absurd hn h⟩
  · have hne : Nat.digits base n ≠ [] := Nat.digits_ne_nil_iff_ne_zero.mpr hn
    have hsplit := List.dropLast_append_getLast hne
    refine ⟨table.getD ((Nat.digits base n).getLast hne) (Char.ofNat 0),
      (Nat.digits base n).dropLast.reverse.map (fun d => table.getD d (Char.ofNat 0)),
      (Nat.digits base n).getLast hne, ?_, ?_, fun _ => Nat.getLast_digit_ne_zero base hn⟩
    · rw [if_neg hn]
      conv_lhs => rw [← hsplit]
      simp
    · exact htable _ (Nat.digits_lt_base hb (List.getLast_mem hne))

theorem canonicalDigits_head_ne_zero (base : Nat) (table : List Char) (n : Nat)
    (hb : 1 < base)
    (htable : ∀ d, d < base → digitValue base (table.getD d (Char.ofNat 0)) = some d)
    (hn : n ≠ 0) : (canonicalDigits base table n).head? ≠ some '0' := by
  obtain ⟨c, rest, d, h1, h2, h3⟩ := canonicalDigits_head base table n hb htable
  rw [h1]
  intro h
  simp only [List.head?_cons, Option.some.injEq] at h
  rw [h, digitValue_zero base (by omega)] at h2
  exact h3 hn (Option.some.inj h2).symm

theorem parseSigned_canonicalDigits (base : Nat) (table : List Char) (n : Nat)
    (hb : 1 < base)
    (htable : ∀ d, d < base → digitValue base (table.getD d (Char.ofNat 0)) = some d) :
    parseSigned base (canonicalDigits base table n) = some (n : Int) ∧
      parseSigned base ('-' :: canonicalDigits base table n) = some (-(n : Int)) := by
  obtain ⟨c, rest, d, h1, h2, _⟩ := canonicalDigits_head base table n hb htable
  have hp := parseDigits_canonicalDigits base table n hb htable
  have hc : c ≠ '-' := by
    intro h
    rw [h, digitValue_minus] at h2
    cases h2
  constructor
  · rw [h1] at hp ⊢
    simp only [parseSigned, if_neg hc, hp]
  · have hne : canonicalDigits base table n ≠ [] := by rw [h1]; exact List.cons_ne_nil _ _
    simp only [parseSigned, if_true, if_neg hne, hp]

theorem LONG_MIN_eq : LONG_MIN = -2147483648 := by
  norm_num [LONG_MIN, longBits]

/-- C23: for every `unsigned long` source below `2 ^ 32`, `cvtUlongToString` writes the
canonical decimal digits of the source followed by a NUL and returns the number of
characters before the NUL; the digits read back as the source, and they do not start with
`0` unless the source is zero, for which `0` is written. -/
theorem cvtUlongToString_spec (source : Nat) (h : source < 2 ^ 32) :
    cvtUlongToString source =
        some (canonicalDigits 10 digit_to_ascii source ++ [Char.ofNat 0],
          (canonicalDigits 10 digit_to_ascii source).length) ∧
      parseDigits 10 (canonicalDigits 10 digit_to_ascii source) 0 = some source ∧
      (source ≠ 0 → (canonicalDigits 10 digit_to_ascii source).head? ≠ some '0') ∧
      canonicalDigits 10 digit_to_ascii 0 = ['0'] := by
  refine ⟨?_, parseDigits_canonicalDigits 10 _ source (by norm_num) digitValue_decimal,
    canonicalDigits_head_ne_zero 10 _ source (by norm_num) digitValue_decimal, rfl⟩
  unfold cvtUlongToString
  by_cases h0 : source = 0
  · rw [if_pos h0, h0]
    rfl
  · rw [if_neg h0, writeDigits_extractDigits 10 10 _ [] source (by norm_num) h0
      (lt_trans h (by norm_num))]
    rfl

/-- Witness for C23: the largest source of 32 bits. -/
theorem cvtUlongToString_spec_witness :
    (4294967295 : Nat) < 2 ^ 32 ∧
      cvtUlongToString 4294967295 =
        some (['4', '2', '9', '4', '9', '6', '7', '2', '9', '5', Char.ofNat 0], 10) := by
  refine ⟨by norm_num, ?_⟩
  have hd : canonicalDigits 10 digit_to_ascii 4294967295 =
      ['4', '2', '9', '4', '9', '6', '7', '2', '9', '5'] := by
    norm_num [canonicalDigits, digit_to_ascii]
  have h := (cvtUlongToString_spec 4294967295 (by norm_num)).1
  rw [hd] at h
  exact h

/-- C28: for every `long` source of 32 bits other than `LONG_MIN`, `cvtLongToString`
writes `-` followed by the canonical decimal digits of `|source|` when the source is
negative and the canonical decimal digits of the source otherwise, then a NUL, and
returns the number of characters before the NUL; reading the written string as a signed
integer in base 10 gives the source again. -/
theorem cvtLongToString_spec (source : Int) (hmin : LONG_MIN < source) (hmax : source < 2 ^ 31) :
    cvtLongToString source =
        some ((if source < 0 then ['-'] else []) ++
            canonicalDigits 10 digit_to_ascii source.natAbs ++ [Char.ofNat 0],
          ((if source < 0 then ['-'] else []) ++
            canonicalDigits 10 digit_to_ascii source.natAbs).length) ∧
      parseSigned 10 ((if source < 0 then ['-'] else []) ++
        canonicalDigits 10 digit_to_ascii source.natAbs) = some source ∧
      (source ≠ 0 → (canonicalDigits 10 digit_to_ascii source.natAbs).head? ≠ some '0') := by
  rw [LONG_MIN_eq] at hmin
  norm_num at hmax
  have hfit : source.natAbs < 10 ^ 11 := by
    have h1 : source.natAbs < 2147483648 := by omega
    exact lt_trans h1 (by norm_num)
  have hp := parseSigned_canonicalDigits 10 digit_to_ascii source.natAbs (by norm_num) digitValue_decimal
  refine ⟨?_, ?_, fun h0 => canonicalDigits_head_ne_zero 10 _ _ (by norm_num) digitValue_decimal
    (by omega)⟩
  · unfold cvtLongToString
    by_cases h0 : source = 0
    · rw [if_pos h0, h0]
      rfl
    · by_cases hneg : source < 0
      · have hne : source ≠ LONG_MIN := by rw [LONG_MIN_eq]; omega
        have habs : (-source).toNat = source.natAbs := by omega
        rw [if_neg h0, if_pos hneg, if_neg hne, if_pos hneg, habs,
          writeDigits_extractDigits 10 11 _ ['-'] _ (by norm_num) (by omega) hfit]
      · have habs : source.toNat = source.natAbs := by omega
        rw [if_neg h0, if_neg hneg, if_neg hneg, habs,
          writeDigits_extractDigits 10 11 _ [] _ (by norm_num) (by omega) hfit]
  · by_cases hneg : source < 0
    · rw [if_pos hneg, List.singleton_append, hp.2]
      congr 1
      omega
    · rw [if_neg hneg, List.nil_append, hp.1]
      congr 1
      omega

/-- Witness for C28: the most negative source that the routine converts itself. -/
theorem cvtLongToString_spec_witness :
    (LONG_MIN < (-2147483647 : Int) ∧ (-2147483647 : Int) < 2 ^ 31) ∧
      cvtLongToString (-2147483647) =
        some (['-', '2', '1', '4', '7', '4', '8', '3', '6', '4', '7', Char.ofNat 0], 11) ∧
      parseSigned 10 ['-', '2', '1', '4', '7', '4', '8', '3', '6', '4', '7'] =
        some (-2147483647) := by
  have hd : canonicalDigits 10 digit_to_ascii 2147483647 =
      ['2', '1', '4', '7', '4', '8', '3', '6', '4', '7'] := by
    norm_num [canonicalDigits, digit_to_ascii]
  have hmin : LONG_MIN < (-2147483647 : Int) := by rw [LONG_MIN_eq]; norm_num
  have h := cvtLongToString_spec (-2147483647) hmin (by norm_num)
  have habs : (-2147483647 : Int).natAbs = 2147483647 := by decide
  rw [habs, hd, if_pos (by norm_num)] at h
  exact ⟨⟨hmin, by norm_num⟩, h.1, h.2.1⟩

/-- C29: for every `long` source of 32 bits other than `LONG_MIN`, `cvtLongToHexString`
writes `-` followed by the canonical lower-case hexadecimal digits of `|source|` when the source is
negative and the canonical lower-case hexadecimal digits of the source otherwise (sign and magnitude, not two's complement; no leading zeros), then a NUL, and
returns the number of characters before the NUL; reading the written string as a signed
integer in base 16 gives the source again. -/
theorem cvtLongToHexString_spec (source : Int) (hmin : LONG_MIN < source) (hmax : source < 2 ^ 31) :
    cvtLongToHexString source =
        some ((if source < 0 then ['-'] else []) ++
            canonicalDigits 16 hex_digit_to_ascii source.natAbs ++ [Char.ofNat 0],
          ((if source < 0 then ['-'] else []) ++
            canonicalDigits 16 hex_digit_to_ascii source.natAbs).length) ∧
      parseSigned 16 ((if source < 0 then ['-'] else []) ++
        canonicalDigits 16 hex_digit_to_ascii source.natAbs) = some source ∧
      (source ≠ 0 → (canonicalDigits 16 hex_digit_to_ascii source.natAbs).head? ≠ some '0') := by
  rw [LONG_MIN_eq] at hmin
  norm_num at hmax
  have hfit : source.natAbs < 16 ^ 10 := by
    have h1 : source.natAbs < 2147483648 := by omega
    exact lt_trans h1 (by norm_num)
  have hp := parseSigned_canonicalDigits 16 hex_digit_to_ascii source.natAbs (by norm_num) digitValue_hex
  refine ⟨?_, ?_, fun h0 => canonicalDigits_head_ne_zero 16 _ _ (by norm_num) digitValue_hex
    (by omega)⟩
  · unfold cvtLongToHexString
    by_cases h0 : source = 0
    · rw [if_pos h0, h0]
      rfl
    · by_cases hneg : source < 0
      · have hne : source ≠ LONG_MIN := by rw [LONG_MIN_eq]; omega
        have habs : (-source).toNat = source.natAbs := by omega
        rw [if_neg h0, if_pos hneg, if_neg hne, if_pos hneg, habs,
          writeDigits_extractDigits 16 10 _ ['-'] _ (by norm_num) (by omega) hfit]
      · have habs : source.toNat = source.natAbs := by omega
        rw [if_neg h0, if_neg hneg, if_neg hneg, habs,
          writeDigits_extractDigits 16 10 _ [] _ (by norm_num) (by omega) hfit]
  · by_cases hneg : source < 0
    · rw [if_pos hneg, List.singleton_append, hp.2]
      congr 1
      omega
    · rw [if_neg hneg, List.nil_append, hp.1]
      congr 1
      omega

/-- Witness for C29: minus 255 is written as `-ff`. -/
theorem cvtLongToHexString_spec_witness :
    (LONG_MIN < (-255 : Int) ∧ (-255 : Int) < 2 ^ 31) ∧
      cvtLongToHexString (-255) = some (['-', 'f', 'f', Char.ofNat 0], 3) ∧
      parseSigned 16 ['-', 'f', 'f'] = some (-255) := by
  have hd : canonicalDigits 16 hex_digit_to_ascii 255 = ['f', 'f'] := by
    norm_num [canonicalDigits, hex_digit_to_ascii, digit_to_ascii]
  have hmin : LONG_MIN < (-255 : Int) := by rw [LONG_MIN_eq]; norm_num
  have h := cvtLongToHexString_spec (-255) hmin (by norm_num)
  have habs : (-255 : Int).natAbs = 255 := by decide
  rw [habs, hd, if_pos (by norm_num)] at h
  exact ⟨⟨hmin, by norm_num⟩, h.1, h.2.1⟩

/-! ## The fallback `strtoul` -/

/-- C27 (the code departs from the claim): the decimal string `8589934590` denotes a
value above `ULONG_MAX` for an `unsigned long` of 32 bits, yet `strtoul` returns
4294967294 without setting `errno` to `ERANGE`: the product wraps to a value that is not
below the running total, so the test `tmp < total` does not see the overflow.  The same
happens with 64 bits for the string `36893488147419103230`. -/
theorem strtoul_overflow_undetected :
    strtoul 32 ['8', '5', '8', '9', '9', '3', '4', '5', '9', '0'] 10 =
        { value := 4294967294, erange := false, endOffset := 10 } ∧
      parseDigits 10 ['8', '5', '8', '9', '9', '3', '4', '5', '9', '0'] 0 =
        some 8589934590 ∧
      2 ^ 32 - 1 < 8589934590 ∧
      strtoul 64 ['3', '6', '8', '9', '3', '4', '8', '8', '1', '4', '7', '4', '1', '9', '1',
          '0', '3', '2', '3', '0'] 10 =
        { value := 18446744073709551614, erange := false, endOffset := 20 } := by
  decide

/-! ## The event registry -/

theorem findHandle_append_of_some (name : String) (h : Nat) (l l2 : List (String × Nat))
    (hl : findHandle name l = some h) : findHandle name (l ++ l2) = some h := by
  induction l with
  | nil => cases hl
  | cons e rest ih =>
    by_cases he : e.1 = name
    · simpa [findHandle, he] using hl
    · simp only [findHandle, he, if_false, List.cons_append] at hl ⊢
      exact ih hl

theorem findHandle_append_of_none (name : String) (h : Nat) (l : List (String × Nat))
    (hl : findHandle name l = none) : findHandle name (l ++ [(name, h)]) = some h := by
  induction l with
  | nil => simp [findHandle]
  | cons e rest ih =>
    by_cases he : e.1 = name
    · simp [findHandle, he] at hl
    · simp only [findHandle, he, if_false, List.cons_append] at hl ⊢
      exact ih hl

/-- After a name was registered the registry holds the handle that was returned. -/
theorem registerEvent_findHandle (r : casEventRegistry) (name : String) :
    findHandle name (registerEvent r name).2.entries = some (registerEvent r name).1 := by
  unfold registerEvent
  cases hf : findHandle name r.entries with
  | none => exact findHandle_append_of_none name _ _ hf
  | some h => exact hf

/-- A handle that the registry holds for a name survives every later registration. -/
theorem registerEvent_keeps (r : casEventRegistry) (name other : String) (h : Nat)
    (hf : findHandle name r.entries = some h) :
    findHandle name (registerEvent r other).2.entries = some h := by
  unfold registerEvent
  cases ho : findHandle other r.entries with
  | none => exact findHandle_append_of_some name h _ _ hf
  | some h2 => exact hf

theorem registerEvents_keeps (names : List String) :
    ∀ (r : casEventRegistry) (name : String) (h : Nat),
      findHandle name r.entries = some h →
      findHandle name (registerEvents r names).entries = some h := by
  induction names with
  | nil => intro r name h hf; exact hf
  | cons n rest ih =>
    intro r name h hf
    exact ih _ name h (registerEvent_keeps r name n h hf)

theorem registerEvent_of_findHandle (r : casEventRegistry) (name : String) (h : Nat)
    (hf : findHandle name r.entries = some h) : (registerEvent r name).1 = h := by
  unfold registerEvent
  rw [hf]

/-- C24: registering an event name again, directly or after any other registrations,
returns the handle that the first registration returned; the handles stored at
construction for `value`, `log` and `alarm` are pairwise distinct, and a later
`registerEvent` of one of these names returns the handle stored at construction. -/
theorem registerEvent_stable (r : casEventRegistry) (name : String) (names : List String) :
    (registerEvent (registerEvent r name).2 name).1 = (registerEvent r name).1 ∧
      (registerEvent (registerEvents (registerEvent r name).2 names) name).1 =
        (registerEvent r name).1 ∧
      (constructEvents.1.valueEvent ≠ constructEvents.1.logEvent ∧
        constructEvents.1.logEvent ≠ constructEvents.1.alarmEvent ∧
        constructEvents.1.valueEvent ≠ constructEvents.1.alarmEvent) ∧
      ((registerEvent (registerEvents constructEvents.2 names) "value").1 =
          constructEvents.1.valueEvent ∧
        (registerEvent (registerEvents constructEvents.2 names) "log").1 =
          constructEvents.1.logEvent ∧
        (registerEvent (registerEvents constructEvents.2 names) "alarm").1 =
          constructEvents.1.alarmEvent) := by
  refine ⟨?_, ?_, by decide, ?_, ?_, ?_⟩
  · exact registerEvent_of_findHandle _ _ _ (registerEvent_findHandle r name)
  · exact registerEvent_of_findHandle _ _ _
      (registerEvents_keeps names _ _ _ (registerEvent_findHandle r name))
  · exact registerEvent_of_findHandle _ _ _
      (registerEvents_keeps names _ _ _ (by decide))
  · exact registerEvent_of_findHandle _ _ _
      (registerEvents_keeps names _ _ _ (by decide))
  · exact registerEvent_of_findHandle _ _ _
      (registerEvents_keeps names _ _ _ (by decide))

theorem traverseDestroy_spec (l : List (String × Nat)) :
    ∀ r : casEventRegistry, r.entries = l →
      traverseDestroy r l =
        ({ entries := [] }, l.map (fun e => Effect.maskEntryDestroy e.1 e.2)) := by
  induction l with
  | nil =>
    intro r hr
    cases r
    simp only at hr
    subst hr
    rfl
  | cons e rest ih =>
    intro r hr
    have h1 : (maskEntryDestroy r e).entries = rest := by
      simp [maskEntryDestroy, hr]
    simp only [traverseDestroy, ih _ h1, List.map_cons]

/-- C26: destruction of the event registry applies `casEventMaskEntry::destroy` to every
mask entry that the registry holds, exactly once each, and no mask entry is held by the
registry afterwards. -/
theorem destructRegistry_spec (r : casEventRegistry) :
    destructRegistry r =
      ({ entries := [] }, r.entries.map (fun e => Effect.maskEntryDestroy e.1 e.2)) :=
  traverseDestroy_spec r.entries r rfl

/-! ## The resource table -/

theorem findRes_removeRes_ne (id other : Nat) (hne : id ≠ other) (l : List (Nat × casRes)) :
    findRes id (removeRes other l) = findRes id l := by
  induction l with
  | nil => rfl
  | cons e rest ih =>
    by_cases h1 : e.1 = other
    · have h2 : ¬ e.1 = id := fun h => hne (h.symm.trans h1)
      simp only [removeRes, findRes, if_pos h1, if_neg h2, ih]
    · by_cases h2 : e.1 = id
      · simp only [removeRes, findRes, if_neg h1, if_pos h2]
      · simp only [removeRes, findRes, if_neg h1, if_neg h2, ih]

/-- An id that is below the next id to assign keeps its resource under every sequence of
operations that does not remove it. -/
theorem runTableOps_keeps (ops : List TableOp) :
    ∀ (t : chronIntIdResTable) (id : Nat) (res : casRes),
      tableLookup t id = some res → id < t.allocId →
      (∀ op ∈ ops, op ≠ TableOp.remove id) →
      tableLookup (runTableOps t ops) id = some res := by
  induction ops with
  | nil => intro t id res h _ _; exact h
  | cons op rest ih =>
    intro t id res h hlt hops
    have hrest : ∀ o ∈ rest, o ≠ TableOp.remove id :=
      fun o ho => hops o (List.mem_cons_of_mem _ ho)
    cases op with
    | insert r2 =>
      show tableLookup (runTableOps (tableInsert t r2).2 rest) id = some res
      apply ih _ id res _ _ hrest
      · have hne : t.allocId ≠ id := by omega
        simpa [tableLookup, tableInsert, findRes, hne] using h
      · simp only [tableInsert]
        omega
    | remove id2 =>
      have hne : id ≠ id2 := by
        intro heq
        exact hops (TableOp.remove id2) (List.mem_cons_self _ _) (by rw [heq])
      show tableLookup (runTableOps (tableRemove t id2) rest) id = some res
      refine ih (tableRemove t id2) id res ?_ hlt hrest
      simpa [tableLookup, tableRemove, findRes_removeRes_ne id id2 hne] using h
    | lookup id2 => exact ih t id res h hlt hrest

/-- C25: in every state of the resource table, the id returned by `insert (r)` looks up
to `r` right away, and it keeps looking up to `r` after every sequence of further
operations in which that id is not removed. -/
theorem tableLookup_insert (t : chronIntIdResTable) (res : casRes) (ops : List TableOp)
    (hops : ∀ op ∈ ops, op ≠ TableOp.remove (tableInsert t res).1) :
    tableLookup (tableInsert t res).2 (tableInsert t res).1 = some res ∧
      tableLookup (runTableOps (tableInsert t res).2 ops) (tableInsert t res).1 =
        some res := by
  have h0 : tableLookup (tableInsert t res).2 (tableInsert t res).1 = some res := by
    simp [tableLookup, tableInsert, findRes]
  exact ⟨h0, runTableOps_keeps ops _ _ _ h0 (by simp [tableInsert]) hops⟩

/-- Witness for C25: resource 30 is inserted into a table of two, another resource is
inserted, id 0 is removed and id 1 is looked up; id 2 still gives resource 30. -/
theorem tableLookup_insert_witness :
    (∀ op ∈ [TableOp.insert 40, TableOp.remove 0, TableOp.lookup 1],
        op ≠ TableOp.remove (tableInsert smallTable 30).1) ∧
      tableLookup (runTableOps (tableInsert smallTable 30).2
        [TableOp.insert 40, TableOp.remove 0, TableOp.lookup 1])
        (tableInsert smallTable 30).1 = some 30 :=
  ⟨by decide, (tableLookup_insert smallTable 30
    [TableOp.insert 40, TableOp.remove 0, TableOp.lookup 1] (by decide)).2⟩

/-! ## The digit buffers of the integer conversions -/

theorem extractDigits_length (base : Nat) (table : List Char) (hb : 1 < base) (val : Nat) :
    (extractDigits base table val).length = (Nat.digits base val).length := by
  rw [extractDigits_eq_digits base table hb, List.length_map]

theorem writeDigits_isSome (base size : Nat) (table sign : List Char) (val : Nat)
    (hb : 1 < base) (hfit : val < base ^ size) :
    (writeDigits size sign (extractDigits base table val)).isSome = true := by
  have hlen : ¬ ((extractDigits base table val).length > size) := by
    rw [extractDigits_length base table hb]
    exact not_lt.mpr (digits_length_le base size val hb hfit)
  unfold writeDigits
  rw [if_neg hlen]
  rfl

/-- C31: with `char` of 8 bits, `short` of 16 bits and `long` of 32 bits, no integer
conversion routine stores more digits into its local array `digit` than the array is
declared to hold, whatever the input (the routine returns its string; only the most
negative value of a signed type is handed to `sprintf` before the loop), and the digit
extraction loop ends: it runs once for every digit of the value in the base of the
routine. -/
theorem digit_buffers_suffice :
    (∀ source : Int, -128 ≤ source → source ≤ 127 → source ≠ CHAR_MIN →
        (cvtCharToString source).isSome = true) ∧
      (∀ source : Nat, source < 2 ^ 8 → (cvtUcharToString source).isSome = true) ∧
      (∀ source : Int, -32768 ≤ source → source ≤ 32767 → source ≠ SHRT_MIN →
        (cvtShortToString source).isSome = true) ∧
      (∀ source : Nat, source < 2 ^ 16 → (cvtUshortToString source).isSome = true) ∧
      (∀ source : Int, -2147483648 ≤ source → source ≤ 2147483647 → source ≠ LONG_MIN →
        (cvtLongToString source).isSome = true) ∧
      (∀ source : Nat, source < 2 ^ 32 → (cvtUlongToString source).isSome = true) ∧
      (∀ source : Int, -2147483648 ≤ source → source ≤ 2147483647 → source ≠ LONG_MIN →
        (cvtLongToHexString source).isSome = true) ∧
      (∀ source : Int, -2147483648 ≤ source → source ≤ 2147483647 → source ≠ LONG_MIN →
        (cvtLongToOctalString source).isSome = true) ∧
      (∀ (base : Nat) (table : List Char) (val : Nat), 1 < base →
        (extractDigits base table val).length = (Nat.digits base val).length) := by
  refine ⟨?_, ?_, ?_, ?_, ?_, ?_, ?_, ?_, fun base table val hb =>
    extractDigits_length base table hb val⟩
  · intro source h1 h2 h3
    unfold cvtCharToString
    by_cases h0 : source = 0
    · rw [if_pos h0]; rfl
    · by_cases hneg : source < 0
      · rw [if_neg h0, if_pos hneg, if_neg h3]
        exact writeDigits_isSome 10 3 _ _ _ (by norm_num)
          (by have : ((-source) % 256).toNat < 256 := by omega
              exact lt_trans this (by norm_num))
      · rw [if_neg h0, if_neg hneg]
        exact writeDigits_isSome 10 3 _ _ _ (by norm_num)
          (by have : (source % 256).toNat < 256 := by omega
              exact lt_trans this (by norm_num))
  · intro source h1
    unfold cvtUcharToString
    by_cases h0 : source = 0
    · rw [if_pos h0]; rfl
    · rw [if_neg h0]
      exact writeDigits_isSome 10 3 _ _ _ (by norm_num) (lt_trans h1 (by norm_num))
  · intro source h1 h2 h3
    unfold cvtShortToString
    by_cases h0 : source = 0
    · rw [if_pos h0]; rfl
    · by_cases hneg : source < 0
      · rw [if_neg h0, if_pos hneg, if_neg h3]
        exact writeDigits_isSome 10 6 _ _ _ (by norm_num)
          (by have : (-source).toNat < 32769 := by omega
              exact lt_trans this (by norm_num))
      · rw [if_neg h0, if_neg hneg]
        exact writeDigits_isSome 10 6 _ _ _ (by norm_num)
          (by have : source.toNat < 32769 := by omega
              exact lt_trans this (by norm_num))
  · intro source h1
    unfold cvtUshortToString
    by_cases h0 : source = 0
    · rw [if_pos h0]; rfl
    · rw [if_neg h0]
      exact writeDigits_isSome 10 5 _ _ _ (by norm_num) (lt_trans h1 (by norm_num))
  · intro source h1 h2 h3
    unfold cvtLongToString
    by_cases h0 : source = 0
    · rw [if_pos h0]; rfl
    · by_cases hneg : source < 0
      · rw [if_neg h0, if_pos hneg, if_neg h3]
        exact writeDigits_isSome 10 11 _ _ _ (by norm_num)
          (by have : (-source).toNat < 2147483649 := by omega
              exact lt_trans this (by norm_num))
      · rw [if_neg h0, if_neg hneg]
        exact writeDigits_isSome 10 11 _ _ _ (by norm_num)
          (by have : source.toNat < 2147483649 := by omega
              exact lt_trans this (by norm_num))
  · intro source h1
    unfold cvtUlongToString
    by_cases h0 : source = 0
    · rw [if_pos h0]; rfl
    · rw [if_neg h0]
      exact writeDigits_isSome 10 10 _ _ _ (by norm_num) (lt_trans h1 (by norm_num))
  · intro source h1 h2 h3
    unfold cvtLongToHexString
    by_cases h0 : source = 0
    · rw [if_pos h0]; rfl
    · by_cases hneg : source < 0
      · rw [if_neg h0, if_pos hneg, if_neg h3]
        exact writeDigits_isSome 16 10 _ _ _ (by norm_num)
          (by have : (-source).toNat < 2147483649 := by omega
              exact lt_trans this (by norm_num))
      · rw [if_neg h0, if_neg hneg]
        exact writeDigits_isSome 16 10 _ _ _ (by norm_num)
          (by have : source.toNat < 2147483649 := by omega
              exact lt_trans this (by norm_num))
  · intro source h1 h2 h3
    unfold cvtLongToOctalString
    by_cases h0 : source = 0
    · rw [if_pos h0]; rfl
    · by_cases hneg : source < 0
      · rw [if_neg h0, if_pos hneg, if_neg h3]
        exact writeDigits_isSome 8 16 _ _ _ (by norm_num)
          (by have : (-source).toNat < 2147483649 := by omega
              exact lt_trans this (by norm_num))
      · rw [if_neg h0, if_neg hneg]
        exact writeDigits_isSome 8 16 _ _ _ (by norm_num)
          (by have : source.toNat < 2147483649 := by omega
              exact lt_trans this (by norm_num))

/-- Witness for C31: the inputs with the most digits in the narrowest buffers. -/
theorem digit_buffers_suffice_witness :
    (cvtUshortToString 65535).isSome = true ∧ (cvtUlongToString 4294967295).isSome = true ∧
      (cvtCharToString (-127)).isSome = true :=
  ⟨digit_buffers_suffice.2.2.2.1 65535 (by norm_num),
    digit_buffers_suffice.2.2.2.2.2.1 4294967295 (by norm_num),
    digit_buffers_suffice.1 (-127) (by norm_num) (by norm_num) (by decide)⟩

/-! ## The node pool -/

/-- C32: for every pool whose free list is empty, `extend` puts exactly one block on the
block list of the pool and leaves the free list pointing at the first node of that block;
the block is the first block of the shared store when the store is not empty, and the
store then loses exactly that block; otherwise it is the newly allocated block and the
store is unchanged (when the allocation gives nothing, `extend` calls `cantProceed`). -/
theorem extend_spec (pool : epicsListNodePool) (store : List epicsListNodeBlock)
    (newBlock : Option epicsListNodeBlock) (hfree : pool._free = none) :
    (∀ b rest, store = b :: rest →
        extend pool store newBlock =
          Except.ok ({ _free := some b.first, _blocks := pool._blocks ++ [b] }, rest)) ∧
      (∀ b, store = [] → newBlock = some b →
        extend pool store newBlock =
          Except.ok ({ _free := some b.first, _blocks := pool._blocks ++ [b] }, [])) ∧
      (store = [] → newBlock = none →
        extend pool store newBlock = Except.error ExtendError.cantProceed) ∧
      (∀ pool2 store2, extend pool store newBlock = Except.ok (pool2, store2) →
        pool2._blocks.length = pool._blocks.length + 1 ∧ pool2._free ≠ none ∧
          (store ≠ [] → store2.length + 1 = store.length) ∧
          (store = [] → store2 = store)) := by
  have h0 : pool._free.isSome = false := by rw [hfree]; rfl
  have hA : ∀ b rest, store = b :: rest →
      extend pool store newBlock =
        Except.ok ({ _free := some b.first, _blocks := pool._blocks ++ [b] }, rest) := by
    intro b rest hs
    subst hs
    simp [extend, h0]
  have hB : ∀ b, store = [] → newBlock = some b →
      extend pool store newBlock =
        Except.ok ({ _free := some b.first, _blocks := pool._blocks ++ [b] }, []) := by
    intro b hs hn
    subst hs
    subst hn
    simp [extend, h0]
  have hC : store = [] → newBlock = none →
      extend pool store newBlock = Except.error ExtendError.cantProceed := by
    intro hs hn
    subst hs
    subst hn
    simp [extend, h0]
  refine ⟨hA, hB, hC, ?_⟩
  intro pool2 store2 hok
  cases store with
  | cons b rest =>
    rw [hA b rest rfl] at hok
    injection hok with hok
    injection hok with h1 h2
    subst h1
    subst h2
    simp
  | nil =>
    cases newBlock with
    | none =>
      rw [hC rfl rfl] at hok
      cases hok
    | some b =>
      rw [hB b rfl rfl] at hok
      injection hok with hok
      injection hok with h1 h2
      subst h1
      subst h2
      simp

/-- Witness for C32: a pool with two blocks and no free node takes block 7 from a store
that holds blocks 7 and 8. -/
theorem extend_spec_witness :
    usedUpPool._free = none ∧
      extend usedUpPool [7, 8] none =
        Except.ok ({ _free := some (epicsListNodeBlock.first 7), _blocks := [3, 4, 7] }, [8]) :=
  ⟨rfl, (extend_spec usedUpPool [7, 8] none rfl).1 7 [8] rfl⟩

end CAS
